import Mathlib

/-!
Verification development for the batch symbol loader of the stock-watching
application (source: src/renderer/utils/*.ts and src/unnamed/part_005, the
stockDataService module).  The TypeScript code is shallowly embedded:
numbers are modelled as exact rationals extended with the IEEE special
values NaN and the two infinities, `undefined` is modelled explicitly, and
the asynchronous callback-driven loaders are modelled as pure functions
returning the final loader state together with the ordered list of callback
events (progress / complete / error) emitted during a run.  Wall-clock
delays (`setTimeout`) have no observable effect on the modelled state and
are dropped; `Date.now()` is passed in as an explicit `now` parameter.
-/

/-! ## JavaScript number and value model

A JS `number` is an IEEE double; the source only ever manipulates values
that are exact (JSON-decoded decimals), so we model a number as either an
exact rational or one of the special values NaN, +Infinity, -Infinity.
Rounding of inexact doubles is not modelled; a comment marks the one place
(percentage rounding) where this could matter in principle. -/

inductive JSNum where
  | nan : JSNum
  | posInf : JSNum
  | negInf : JSNum
  | num : ℚ → JSNum
deriving DecidableEq

/-- A JS value that may also be `undefined` (a missing object field). -/
inductive JSVal where
  | undef : JSVal
  | val : JSNum → JSVal
deriving DecidableEq

/-- `ToNumber` coercion used by JS arithmetic: `undefined` becomes NaN. -/
def JSVal.toNum : JSVal → JSNum
  | JSVal.undef => JSNum.nan
  | JSVal.val n => n

/-- JS subtraction `a - b` on numbers (IEEE semantics on our value space). -/
def jsSub : JSNum → JSNum → JSNum
  | JSNum.nan, _ => JSNum.nan
  | _, JSNum.nan => JSNum.nan
  | JSNum.posInf, JSNum.posInf => JSNum.nan
  | JSNum.posInf, _ => JSNum.posInf
  | JSNum.negInf, JSNum.negInf => JSNum.nan
  | JSNum.negInf, _ => JSNum.negInf
  | JSNum.num _, JSNum.posInf => JSNum.negInf
  | JSNum.num _, JSNum.negInf => JSNum.posInf
  | JSNum.num a, JSNum.num b => JSNum.num (a - b)

/-- JS multiplication `a * b` (IEEE semantics; signed zeros are collapsed). -/
def jsMul : JSNum → JSNum → JSNum
  | JSNum.nan, _ => JSNum.nan
  | _, JSNum.nan => JSNum.nan
  | JSNum.posInf, JSNum.posInf => JSNum.posInf
  | JSNum.posInf, JSNum.negInf => JSNum.negInf
  | JSNum.negInf, JSNum.posInf => JSNum.negInf
  | JSNum.negInf, JSNum.negInf => JSNum.posInf
  | JSNum.posInf, JSNum.num b =>
      if b = 0 then JSNum.nan else if 0 < b then JSNum.posInf else JSNum.negInf
  | JSNum.negInf, JSNum.num b =>
      if b = 0 then JSNum.nan else if 0 < b then JSNum.negInf else JSNum.posInf
  | JSNum.num a, JSNum.posInf =>
      if a = 0 then JSNum.nan else if 0 < a then JSNum.posInf else JSNum.negInf
  | JSNum.num a, JSNum.negInf =>
      if a = 0 then JSNum.nan else if 0 < a then JSNum.negInf else JSNum.posInf
  | JSNum.num a, JSNum.num b => JSNum.num (a * b)

/-- JS division `a / b` (IEEE semantics; the dividend zero is treated as +0,
matching every occurrence in the source, where divisors come from JSON). -/
def jsDiv : JSNum → JSNum → JSNum
  | JSNum.nan, _ => JSNum.nan
  | _, JSNum.nan => JSNum.nan
  | JSNum.posInf, JSNum.posInf => JSNum.nan
  | JSNum.posInf, JSNum.negInf => JSNum.nan
  | JSNum.negInf, JSNum.posInf => JSNum.nan
  | JSNum.negInf, JSNum.negInf => JSNum.nan
  | JSNum.posInf, JSNum.num b => if 0 ≤ b then JSNum.posInf else JSNum.negInf
  | JSNum.negInf, JSNum.num b => if 0 ≤ b then JSNum.negInf else JSNum.posInf
  | JSNum.num _, JSNum.posInf => JSNum.num 0
  | JSNum.num _, JSNum.negInf => JSNum.num 0
  | JSNum.num a, JSNum.num b =>
      if b = 0 then
        if a = 0 then JSNum.nan else if 0 < a then JSNum.posInf else JSNum.negInf
      else JSNum.num (a / b)

/-- JS truthiness of a number: `0` and `NaN` are falsy. -/
def JSNum.truthy : JSNum → Bool
  | JSNum.nan => false
  | JSNum.posInf => true
  | JSNum.negInf => true
  | JSNum.num q => decide (q ≠ 0)

/-- JS truthiness of a value: `undefined` is falsy. -/
def JSVal.truthy : JSVal → Bool
  | JSVal.undef => false
  | JSVal.val n => n.truthy

/-- `typeof x === 'number'`: true for every number, including NaN and the
infinities, false for `undefined`. -/
def JSVal.isNumber : JSVal → Bool
  | JSVal.undef => false
  | JSVal.val _ => true

/-- JS `x || d` where `d` is a number: the value of `x` if truthy, else `d`. -/
def jsOr (x : JSVal) (d : JSNum) : JSNum :=
  if x.truthy then x.toNum else d

/-- JS `x || d` on an optional string: the empty string is falsy. -/
def jsOrStr (x : Option String) (d : String) : String :=
  match x with
  | some s => if s = "" then d else s
  | none => d

/-- `Math.round` on an exact rational: round half toward positive infinity. -/
def jsRound (q : ℚ) : ℤ := ⌊q + 1 / 2⌋

/-! ## Data model (src/unnamed/part_005, src/renderer/utils/aiFilter.ts)

`YahooMeta` is the `meta` object of a raw Yahoo chart payload; every numeric
field may be missing (`JSVal.undef`).  `RealStockData` mirrors the
`RealStockData` interface of part_005; the fields typed `number` there can
still hold `undefined` at runtime (the single-symbol path copies raw meta
fields straight through), so they are modelled as `JSVal`.  `Stock` mirrors
the `Stock` interface of aiFilter.ts, whose three valuation fields are
declared `number | null` with the comment `Real value or null - NO
ESTIMATES`; `null` is `Option.none`. -/

structure YahooMeta where
  symbol : String
  longName : Option String
  regularMarketPrice : JSVal
  previousClose : JSVal
  regularMarketVolume : JSVal
  marketCap : JSVal
  trailingPE : JSVal
  dividendYield : JSVal
  sector : Option String
deriving DecidableEq

structure RealStockData where
  symbol : String
  name : String
  price : JSVal
  change : JSVal
  changePercent : JSVal
  volume : JSVal
  marketCap : JSVal
  pe : JSVal
  dividendYield : JSVal
  sector : Option String
  timestamp : ℕ
deriving DecidableEq

structure Stock where
  ticker : String
  name : String
  sector : String
  price : JSNum
  pe : Option JSNum
  dividendYield : Option JSNum
  marketCap : Option JSNum
  volume : JSNum
  change : JSNum
  changePercent : JSNum
deriving DecidableEq

/-- The record built by `getYahooStockData` (part_005, lines 43-55) from the
`meta` object of a successful single-symbol chart response.  `symbol` is the
requested symbol (the function argument used as the `longName` fallback);
note that `change` and `changePercent` are computed with raw, unguarded
arithmetic, and the optional meta fields are copied through unchanged. -/
def getYahooStockDataRecord (symbol : String) (meta : YahooMeta) (now : ℕ) :
    RealStockData :=
  { symbol := meta.symbol
    name := jsOrStr meta.longName symbol
    price := meta.regularMarketPrice
    change := JSVal.val
      (jsSub meta.regularMarketPrice.toNum meta.previousClose.toNum)
    changePercent := JSVal.val
      (jsMul
        (jsDiv (jsSub meta.regularMarketPrice.toNum meta.previousClose.toNum)
          meta.previousClose.toNum)
        (JSNum.num 100))
    volume := meta.regularMarketVolume
    marketCap := meta.marketCap
    pe := meta.trailingPE
    dividendYield := meta.dividendYield
    sector := meta.sector
    timestamp := now }

/-- The record built per result inside `getMultipleStocksData` (part_005,
lines 198-211).  Here every numeric field is coalesced with `|| 0` and the
percent change is guarded by the truthiness of `meta.previousClose`;
`reqSymbol` is `result.symbol`, used as the `longName` fallback. -/
def multiStockDataRecord (reqSymbol : String) (meta : YahooMeta) (now : ℕ) :
    RealStockData :=
  { symbol := meta.symbol
    name := jsOrStr meta.longName reqSymbol
    price := JSVal.val (jsOr meta.regularMarketPrice (JSNum.num 0))
    change := JSVal.val
      (jsSub (jsOr meta.regularMarketPrice (JSNum.num 0))
        (jsOr meta.previousClose (JSNum.num 0)))
    changePercent := JSVal.val
      (if meta.previousClose.truthy then
        jsMul
          (jsDiv
            (jsSub (jsOr meta.regularMarketPrice (JSNum.num 0))
              meta.previousClose.toNum)
            meta.previousClose.toNum)
          (JSNum.num 100)
      else JSNum.num 0)
    volume := JSVal.val (jsOr meta.regularMarketVolume (JSNum.num 0))
    marketCap := JSVal.val (jsOr meta.marketCap (JSNum.num 0))
    pe := JSVal.val (jsOr meta.trailingPE (JSNum.num 0))
    dividendYield := JSVal.val (jsOr meta.dividendYield (JSNum.num 0))
    sector := some (jsOrStr meta.sector "Unknown")
    timestamp := now }

/-- One element of the array returned by the Electron IPC call
`fetchMultipleStocks`: the requested symbol, a success flag, and (when the
payload has `data.chart.result[0]`) its `meta` object.  A missing or
malformed chart is `data = none`. -/
structure FetchResult where
  symbol : String
  success : Bool
  data : Option YahooMeta
deriving DecidableEq

/-- `getMultipleStocksData` (part_005, lines 168-227), Electron path: filter
the successful results carrying data, convert each meta object, and drop
any result whose meta has a falsy symbol (the `!meta.symbol` guard). -/
def getMultipleStocksData (results : List FetchResult) (now : ℕ) :
    List RealStockData :=
  results.filterMap fun r =>
    if r.success then
      match r.data with
      | some meta =>
          if meta.symbol = "" then none
          else some (multiStockDataRecord r.symbol meta now)
      | none => none
    else none

/-- `typeof x === 'number' ? x : 0` (convertToStock field guard). -/
def numOrZero (v : JSVal) : JSNum :=
  match v with
  | JSVal.val n => n
  | JSVal.undef => JSNum.num 0

/-- `convertToStock` (part_005, lines 241-278).  A falsy `symbol` triggers
the thrown-and-caught error path returning the safe default object; every
other record is converted field by field, substituting `0` for any field
that is not a number at runtime.  Note the three valuation fields are
always `some _`: the conversion never produces `null` even though the
`Stock` interface admits it. -/
def convertToStock (realData : RealStockData) : Stock :=
  if realData.symbol = "" then
    { ticker := "UNKNOWN"
      name := if realData.name = "" then "Unknown Company" else realData.name
      sector := "Unknown"
      price := JSNum.num 0
      pe := some (JSNum.num 0)
      dividendYield := some (JSNum.num 0)
      marketCap := some (JSNum.num 0)
      volume := JSNum.num 0
      change := JSNum.num 0
      changePercent := JSNum.num 0 }
  else
    { ticker := realData.symbol
      name := if realData.name = "" then realData.symbol else realData.name
      sector := jsOrStr realData.sector "Unknown"
      price := numOrZero realData.price
      pe := some (numOrZero realData.pe)
      dividendYield := some (numOrZero realData.dividendYield)
      marketCap := some (numOrZero realData.marketCap)
      volume := numOrZero realData.volume
      change := numOrZero realData.change
      changePercent := numOrZero realData.changePercent }

/-! ## Batch partitioning and remaining-symbol computation

`createBatches` appears verbatim in persistentLoader.ts (lines 173-179),
sp500Loader.ts (lines 293-299), megaLoader.ts and turboLoader.ts: a loop
`for (i = 0; i < symbols.length; i += batchSize)` pushing
`symbols.slice(i, i + batchSize)`.  With `batchSize = 0` the JS loop never
terminates; the model returns `[]` in that branch, and every theorem about
`createBatches` carries the hypothesis `0 < batchSize`. -/

def createBatchesGo (batchSize : ℕ) : ℕ → List String → List (List String)
  | _, [] => []
  | 0, _ :: _ => []
  | fuel + 1, s :: rest =>
      (s :: rest).take batchSize ::
        createBatchesGo batchSize fuel ((s :: rest).drop batchSize)

def createBatches (symbols : List String) (batchSize : ℕ) :
    List (List String) :=
  if batchSize = 0 then []
  else createBatchesGo batchSize symbols.length symbols

theorem createBatchesGo_congr (batchSize : ℕ) (hbs : batchSize ≠ 0) :
    ∀ (fuel₁ fuel₂ : ℕ) (syms : List String),
      syms.length ≤ fuel₁ → syms.length ≤ fuel₂ →
      createBatchesGo batchSize fuel₁ syms =
        createBatchesGo batchSize fuel₂ syms := by
  intro fuel₁
  induction fuel₁ using Nat.strong_induction_on with
  | _ f ih =>
    intro fuel₂ syms h1 h2
    cases syms with
    | nil => cases fuel₂ <;> cases f <;> rfl
    | cons s rest =>
      cases f with
      | zero => simp at h1
      | succ g =>
        cases fuel₂ with
        | zero => simp at h2
        | succ f₂ =>
          simp only [createBatchesGo]
          congr 1
          apply ih g (Nat.lt_succ_self g)
          · have hb1 : 1 ≤ batchSize := Nat.one_le_iff_ne_zero.mpr hbs
            simp only [List.length_drop, List.length_cons] at h1 ⊢
            omega
          · have hb1 : 1 ≤ batchSize := Nat.one_le_iff_ne_zero.mpr hbs
            simp only [List.length_drop, List.length_cons] at h2 ⊢
            omega

/-- `getRemainingSymbols` (persistentLoader.ts lines 184-187, identical in
megaLoader.ts): filter out the symbols whose ticker is already present in
the loaded stocks. -/
def getRemainingSymbols (allSymbols : List String) (loadedStocks : List Stock) :
    List String :=
  let loadedSymbols := loadedStocks.map Stock.ticker
  allSymbols.filter fun symbol => !(loadedSymbols.contains symbol)

/-! ## Callback events

A loader run invokes three caller-supplied callbacks; a run is modelled as
the final state paired with the ordered list of invocations. -/

inductive LoaderEvent where
  | progress : ℕ → ℕ → List String → Bool → LoaderEvent
  | complete : List Stock → LoaderEvent
  | error : String → LoaderEvent
deriving DecidableEq

def isCompleteEvent : LoaderEvent → Bool
  | LoaderEvent.complete _ => true
  | _ => false

def isErrorEvent : LoaderEvent → Bool
  | LoaderEvent.error _ => true
  | _ => false

def isProgressEvent : LoaderEvent → Bool
  | LoaderEvent.progress _ _ _ _ => true
  | _ => false

/-- The `loadedCount` arguments of the progress events, in emission order. -/
def progressLoads (events : List LoaderEvent) : List ℕ :=
  events.filterMap fun e =>
    match e with
    | LoaderEvent.progress loaded _ _ _ => some loaded
    | _ => none

/-! ## PersistentStockLoader (src/renderer/utils/persistentLoader.ts)

The quote source is abstracted as an oracle mapping the requested batch
symbols and the retry attempt number to the raw IPC results that
`getMultipleStocksData` would process.  `getMultipleStocksData` itself
never throws (it catches internally and returns `[]`), so
`loadBatchPersistent` never throws either.

The batch loop of `processSymbolsPersistent` has a scope bug that shapes
its whole semantics: both of its `onProgress` calls (lines 97 and 119)
reference `allSymbols`, but the method has no such name in scope — its
own parameter is `symbols`, and `allSymbols` exists only as a parameter
of the sibling methods `loadAllStocks` (line 27) and
`getRemainingSymbols` (line 184), which share no lexical scope with it.
Evaluating the argument list therefore throws a ReferenceError before
`onProgress` is ever invoked.  Consequently the first loop iteration
always ends in the `catch` block, the ceiling check at lines 100-104 and
every in-loop `onProgress` are unreachable, and the loop never reaches a
second batch.  The run outcome is tracked explicitly: `RunOutcome`
records whether the async method returned normally or its promise was
rejected by an exception that escaped (no callback fires in the latter
case; the caller `loadAllStocks` awaits without a try/catch, so the
rejection propagates to it unchanged). -/

/-- How a loader run ends: a normal return (all callback invocations are
in the event list), or a rejected promise — an exception escaped the
async method, and no further callback fires. -/
inductive RunOutcome where
  | returned : RunOutcome
  | rejected : String → RunOutcome
deriving DecidableEq

/-- The exception thrown at persistentLoader.ts lines 97 and 119 when the
free name `allSymbols` is evaluated. -/
def allSymbolsReferenceError : String :=
  "ReferenceError: allSymbols is not defined"

namespace PersistentStockLoader

/-- Retry loop body of `loadBatchPersistent` (lines 136-168): up to
`maxRetries` attempts; the first attempt returning at least one record is
converted and returned, exhaustion returns `[]`. -/
def loadBatchGo (oracle : List String → ℕ → List FetchResult) (now : ℕ)
    (symbols : List String) : ℕ → ℕ → List Stock
  | 0, _ => []
  | remaining + 1, attempt =>
      let realData := getMultipleStocksData (oracle symbols attempt) now
      if 0 < realData.length then realData.map convertToStock
      else loadBatchGo oracle now symbols remaining (attempt + 1)

/-- `loadBatchPersistent` (lines 136-168): attempts are numbered from 1. -/
def loadBatchPersistent (oracle : List String → ℕ → List FetchResult)
    (now maxRetries : ℕ) (symbols : List String) : List Stock :=
  loadBatchGo oracle now symbols maxRetries 1

/-- Loader instance state touched by a run.  `consecutiveFailures` and
`failureCount` are instance fields that survive across runs; the
accumulated `allStocks` array is threaded through the batch loop. -/
structure State where
  allStocks : List Stock
  consecutiveFailures : ℕ
  failureCount : ℕ
deriving DecidableEq

/-- `processSymbolsPersistent` (lines 68-131).  With no batch, the loop is
skipped and `onComplete(allStocks)` fires (after a final checkpoint).
With at least one batch, the first iteration runs to line 97: the batch is
fetched with retry and merged (on at least one record: append, zero the
consecutive-failure counter, checkpoint; otherwise increment the counter);
then evaluating `allSymbols.length` in the `onProgress` argument list
throws a ReferenceError, so control reaches the `catch` block — the
consecutive-failure counter and `failureCount` are incremented once more.
If anything has been accumulated, line 119 re-evaluates `allSymbols` and
throws again, this time uncaught: the promise rejects and no callback
fires.  Otherwise `onError` receives the ReferenceError and the method
returns.  Later batches, the in-loop `onProgress` calls and the
consecutive-failure ceiling check (lines 100-104, hence
`maxConsecutiveFailures`) are unreachable. -/
def processSymbolsPersistent (oracle : List String → ℕ → List FetchResult)
    (now maxRetries maxConsecutiveFailures : ℕ) :
    List (List String) → State → State × List LoaderEvent × RunOutcome
  | [], st => (st, [LoaderEvent.complete st.allStocks], RunOutcome.returned)
  | batch :: _rest, st =>
      let batchStocks := loadBatchPersistent oracle now maxRetries batch
      let st1 : State :=
        if 0 < batchStocks.length then
          { st with allStocks := st.allStocks ++ batchStocks
                    consecutiveFailures := 0 }
        else
          { st with consecutiveFailures := st.consecutiveFailures + 1 }
      let st2 : State :=
        { st1 with consecutiveFailures := st1.consecutiveFailures + 1
                   failureCount := st1.failureCount + 1 }
      if 0 < st2.allStocks.length then
        (st2, [], RunOutcome.rejected allSymbolsReferenceError)
      else
        (st2, [LoaderEvent.error allSymbolsReferenceError],
          RunOutcome.returned)

/-- `loadAllStocks` (lines 26-63).  The cached stocks (already read by
`loadFromCache`) are reported via `onProgress(..., true)`; if they cover at
least 10 percent of the request (`cachedStocks.length >=
allSymbols.length * 0.1`, exact-rational model of the float comparison)
the run short-circuits with `onComplete(cachedStocks)`.  Otherwise the
remaining symbols are partitioned into batches of `batchSize` (field
default 5) and processed.  `cf0` is the value of the instance field
`consecutiveFailures` at entry (0 for a fresh loader).  `loadAllStocks`
awaits `processSymbolsPersistent` with no try/catch of its own, so a
rejection of the inner promise propagates unchanged. -/
def loadAllStocks (oracle : List String → ℕ → List FetchResult)
    (now maxRetries maxConsecutiveFailures batchSize : ℕ)
    (cachedStocks : List Stock) (cf0 : ℕ) (allSymbols : List String) :
    State × List LoaderEvent × RunOutcome :=
  let pre : List LoaderEvent :=
    if 0 < cachedStocks.length then
      [LoaderEvent.progress cachedStocks.length allSymbols.length [] true]
    else []
  if 0 < cachedStocks.length ∧ allSymbols.length ≤ 10 * cachedStocks.length then
    ({ allStocks := cachedStocks, consecutiveFailures := cf0,
       failureCount := 0 },
      pre ++ [LoaderEvent.complete cachedStocks], RunOutcome.returned)
  else
    let remainingSymbols := getRemainingSymbols allSymbols cachedStocks
    let batches := createBatches remainingSymbols batchSize
    let r := processSymbolsPersistent oracle now maxRetries
      maxConsecutiveFailures batches
      { allStocks := cachedStocks, consecutiveFailures := cf0,
        failureCount := 0 }
    (r.1, pre ++ r.2.1, r.2.2)

/-- A Progress Store snapshot as serialized by `saveToCache`. -/
structure CacheSnapshot where
  stocks : List Stock
  timestamp : ℕ
deriving DecidableEq

/-- `loadFromCache` (lines 212-231): a stored snapshot whose age
`now - timestamp` exceeds `maxCacheAge` is removed and treated as absent;
otherwise its stocks are returned.  The result pairs the stocks handed to
the loader with the store contents after the read. -/
def loadFromCache (stored : Option CacheSnapshot) (now maxCacheAge : ℕ) :
    List Stock × Option CacheSnapshot :=
  match stored with
  | none => ([], none)
  | some c =>
      if maxCacheAge < now - c.timestamp then ([], none)
      else (c.stocks, some c)

end PersistentStockLoader

/-! ## MegaStockLoader (src/renderer/utils/megaLoader.ts)

Same shape as the persistent loader, but `loadBatchWithRetry` rethrows
after exhausting its retries, the surrounding loop swallows that exception
and simply moves on (emitting no progress event for the failed batch), and
the run has no consecutive-failure ceiling: `onError` is never invoked. -/

namespace MegaStockLoader

/-- `loadBatchWithRetry` (lines 90-116): `none` models the exception that
propagates after the last attempt fails. -/
def loadBatchGo (oracle : List String → ℕ → List FetchResult) (now : ℕ)
    (symbols : List String) : ℕ → ℕ → Option (List Stock)
  | 0, _ => none
  | remaining + 1, attempt =>
      let realData := getMultipleStocksData (oracle symbols attempt) now
      if 0 < realData.length then some (realData.map convertToStock)
      else loadBatchGo oracle now symbols remaining (attempt + 1)

def loadBatchWithRetry (oracle : List String → ℕ → List FetchResult)
    (now maxRetries : ℕ) (symbols : List String) : Option (List Stock) :=
  loadBatchGo oracle now symbols maxRetries 1

/-- The batch loop inside `loadAllStocks` (lines 52-86): on success append
and checkpoint, emit progress; on exception continue silently; after the
last batch `onComplete(allStocks)`. -/
def loadLoop (oracle : List String → ℕ → List FetchResult)
    (now maxRetries totalLen : ℕ) :
    List (List String) → List Stock → List Stock × List LoaderEvent
  | [], allStocks => (allStocks, [LoaderEvent.complete allStocks])
  | batch :: rest, allStocks =>
      match loadBatchWithRetry oracle now maxRetries batch with
      | some batchStocks =>
          let allStocks1 :=
            if 0 < batchStocks.length then allStocks ++ batchStocks
            else allStocks
          let r := loadLoop oracle now maxRetries totalLen rest allStocks1
          (r.1,
            LoaderEvent.progress allStocks1.length totalLen batch false :: r.2)
      | none => loadLoop oracle now maxRetries totalLen rest allStocks

/-- `loadAllStocks` (lines 23-87): cached stocks are reported, an 80
percent cache coverage short-circuits, otherwise the remaining symbols are
processed in batches of `batchSize` (field default 2). -/
def loadAllStocks (oracle : List String → ℕ → List FetchResult)
    (now maxRetries batchSize : ℕ) (cachedStocks : List Stock)
    (allSymbols : List String) : List Stock × List LoaderEvent :=
  let pre : List LoaderEvent :=
    if 0 < cachedStocks.length then
      [LoaderEvent.progress cachedStocks.length allSymbols.length [] true]
    else []
  if 0 < cachedStocks.length ∧
      8 * allSymbols.length ≤ 10 * cachedStocks.length then
    (cachedStocks, pre ++ [LoaderEvent.complete cachedStocks])
  else
    let remainingSymbols := getRemainingSymbols allSymbols cachedStocks
    let batches := createBatches remainingSymbols batchSize
    let r := loadLoop oracle now maxRetries allSymbols.length batches
      cachedStocks
    (r.1, pre ++ r.2)

end MegaStockLoader

/-! ## BatchStockLoader (src/renderer/utils/turboLoader.ts, lines 489-583)

The cacheless variant: all symbols are always fetched.  Its retry helper
also rethrows on exhaustion, but here the loop catch emits a progress
event before moving on.  Its `onProgress` has no `isFromCache` argument;
the shared event type records `false` there. -/

namespace BatchStockLoader

def loadBatchGo (oracle : List String → ℕ → List FetchResult) (now : ℕ)
    (symbols : List String) : ℕ → ℕ → Option (List Stock)
  | 0, _ => none
  | remaining + 1, attempt =>
      let realData := getMultipleStocksData (oracle symbols attempt) now
      if 0 < realData.length then some (realData.map convertToStock)
      else loadBatchGo oracle now symbols remaining (attempt + 1)

def loadBatchWithRetry (oracle : List String → ℕ → List FetchResult)
    (now maxRetries : ℕ) (symbols : List String) : Option (List Stock) :=
  loadBatchGo oracle now symbols maxRetries 1

/-- The batch loop of `loadAllStocks` (lines 500-543). -/
def loadLoop (oracle : List String → ℕ → List FetchResult)
    (now maxRetries totalLen : ℕ) :
    List (List String) → List Stock → List Stock × List LoaderEvent
  | [], allStocks => (allStocks, [LoaderEvent.complete allStocks])
  | batch :: rest, allStocks =>
      match loadBatchWithRetry oracle now maxRetries batch with
      | some batchStocks =>
          let allStocks1 :=
            if 0 < batchStocks.length then allStocks ++ batchStocks
            else allStocks
          let r := loadLoop oracle now maxRetries totalLen rest allStocks1
          (r.1,
            LoaderEvent.progress allStocks1.length totalLen batch false :: r.2)
      | none =>
          let r := loadLoop oracle now maxRetries totalLen rest allStocks
          (r.1,
            LoaderEvent.progress allStocks.length totalLen batch false :: r.2)

/-- `loadAllStocks` (lines 500-543): no cache, no failure ceiling. -/
def loadAllStocks (oracle : List String → ℕ → List FetchResult)
    (now maxRetries batchSize : ℕ) (allSymbols : List String) :
    List Stock × List LoaderEvent :=
  let batches := createBatches allSymbols batchSize
  loadLoop oracle now maxRetries allSymbols.length batches []

end BatchStockLoader

/-! ## SP500Loader (src/renderer/utils/sp500Loader.ts)

The S&P 500 loader keys its progress reports to the static symbol universe
`SP500_SYMBOLS`; the universe is passed as the `universe` parameter.  The
`estimatedTimeRemaining` field of `LoadingProgress` is derived from wall
clock timing and is omitted from the model. -/

structure LoadingProgress where
  loaded : ℕ
  total : ℕ
  currentSymbol : String
  percentage : ℤ
  isFromCache : Bool
deriving DecidableEq

inductive SPEvent where
  | progress : LoadingProgress → SPEvent
  | complete : List Stock → SPEvent
  | error : String → SPEvent
deriving DecidableEq

namespace SP500Loader

/-- `loadBatchWithRetry` (sp500Loader.ts lines 257-285): like the
persistent variant it returns `[]` on exhaustion instead of throwing, and
it drops converted stocks with a falsy ticker. -/
def loadBatchGo (oracle : List String → ℕ → List FetchResult) (now : ℕ)
    (symbols : List String) : ℕ → ℕ → List Stock
  | 0, _ => []
  | remaining + 1, attempt =>
      let realData := getMultipleStocksData (oracle symbols attempt) now
      if 0 < realData.length then
        (realData.map convertToStock).filter fun s => !(s.ticker = "")
      else loadBatchGo oracle now symbols remaining (attempt + 1)

def loadBatchWithRetry (oracle : List String → ℕ → List FetchResult)
    (now maxRetries : ℕ) (symbols : List String) : List Stock :=
  loadBatchGo oracle now symbols maxRetries 1

/-- `loadStocksInBatches` (lines 200-255): only a successful batch with at
least one stock appends to `loadedStocks` and emits a progress report; the
report computes `percentage = Math.round(loadedStocks.length /
SP500_SYMBOLS.length * 100)` and `currentSymbol = batch[batch.length - 1]`.
A failed batch only marks its symbols processed and continues.  `isRunning`
stays true throughout a run without `stop()`, so it is not modelled. -/
def loadStocksInBatches (oracle : List String → ℕ → List FetchResult)
    (now maxRetries universeLen : ℕ) :
    List (List String) → List Stock → List Stock × List LoadingProgress
  | [], loadedStocks => (loadedStocks, [])
  | batch :: rest, loadedStocks =>
      let batchStocks := loadBatchWithRetry oracle now maxRetries batch
      if 0 < batchStocks.length then
        let loaded1 := loadedStocks ++ batchStocks
        let report : LoadingProgress :=
          { loaded := loaded1.length
            total := universeLen
            currentSymbol := batch.getLastD ""
            percentage :=
              jsRound ((loaded1.length : ℚ) / (universeLen : ℚ) * 100)
            isFromCache := false }
        let r := loadStocksInBatches oracle now maxRetries universeLen rest
          loaded1
        (r.1, report :: r.2)
      else loadStocksInBatches oracle now maxRetries universeLen rest
        loadedStocks

/-- `loadAllStocks` (lines 126-195).  An empty universe throws and
surfaces `onError`; a cache covering at least 90 percent of the universe
(`loadedStocks.length >= SP500_SYMBOLS.length * 0.9`, exact-rational model)
short-circuits with a hard-coded `percentage: 100` report; otherwise the
unprocessed symbols are loaded in batches of 5 and `onComplete` fires with
the accumulated list.  `loaded0` and `processed0` are the instance fields
`loadedStocks` and `processedSymbols` at entry (hydrated from the cache by
the constructor, which derives `processedSymbols` from the cached
tickers). -/
def loadAllStocks (oracle : List String → ℕ → List FetchResult)
    (now maxRetries : ℕ) (univSymbols : List String) (loaded0 : List Stock)
    (processed0 : List String) : List Stock × List SPEvent :=
  if univSymbols.length = 0 then
    (loaded0, [SPEvent.error "No S&P 500 symbols available"])
  else if 9 * univSymbols.length ≤ 10 * loaded0.length then
    (loaded0,
      [SPEvent.progress
        { loaded := loaded0.length, total := univSymbols.length,
          currentSymbol := "Cached", percentage := 100, isFromCache := true },
        SPEvent.complete loaded0])
  else
    let remainingSymbols := univSymbols.filter fun s => !(processed0.contains s)
    if remainingSymbols.length = 0 then
      (loaded0, [SPEvent.complete loaded0])
    else
      let batches := createBatches remainingSymbols 5
      let r := loadStocksInBatches oracle now maxRetries univSymbols.length
        batches loaded0
      (r.1, (r.2.map SPEvent.progress) ++ [SPEvent.complete r.1])

end SP500Loader

/-! ## SmartLoader (src/renderer/utils/smartLoader.ts)

Only its Progress Store reader matters here: `loadFromCache`
(lines 213-227) restores the stored stocks and processed symbols without
ever inspecting the snapshot timestamp — there is no max-age check. -/

structure SmartCacheSnapshot where
  stocks : List Stock
  processedSymbols : List String
  timestamp : ℕ
deriving DecidableEq

namespace SmartLoader

def loadFromCache (stored : Option SmartCacheSnapshot) :
    List Stock × List String :=
  match stored with
  | none => ([], [])
  | some c => (c.stocks, c.processedSymbols)

end SmartLoader

/-! ## Helper lemmas -/

theorem createBatches_nil (batchSize : ℕ) : createBatches [] batchSize = [] := by
  unfold createBatches
  split <;> rfl

theorem createBatches_cons (symbols : List String) (batchSize : ℕ)
    (h1 : symbols ≠ []) (h2 : batchSize ≠ 0) :
    createBatches symbols batchSize =
      symbols.take batchSize ::
        createBatches (symbols.drop batchSize) batchSize := by
  obtain ⟨s, rest, rfl⟩ := List.exists_cons_of_ne_nil h1
  simp only [createBatches, h2, if_false]
  simp only [List.length_cons, createBatchesGo]
  congr 1
  apply createBatchesGo_congr batchSize h2
  · have hb1 : 1 ≤ batchSize := Nat.one_le_iff_ne_zero.mpr h2
    simp only [List.length_drop, List.length_cons]
    omega
  · exact Nat.le_refl _

theorem createBatches_flatten (symbols : List String) (batchSize : ℕ)
    (h : 0 < batchSize) :
    (createBatches symbols batchSize).flatten = symbols := by
  suffices H : ∀ (n : ℕ) (syms : List String), syms.length = n →
      (createBatches syms batchSize).flatten = syms from H _ symbols rfl
  intro n
  induction n using Nat.strong_induction_on with
  | _ n ih =>
    intro syms hn
    rcases eq_or_ne syms [] with rfl | hne
    · simp [createBatches_nil]
    · rw [createBatches_cons syms batchSize hne (Nat.pos_iff_ne_zero.mp h)]
      have hlt : (syms.drop batchSize).length < n := by
        subst hn
        simp only [List.length_drop]
        have : 0 < syms.length := List.length_pos.mpr hne
        omega
      rw [List.flatten_cons, ih _ hlt _ rfl, List.take_append_drop]

theorem createBatches_mem (symbols : List String) (batchSize : ℕ)
    (h : 0 < batchSize) (b : List String)
    (hb : b ∈ createBatches symbols batchSize) :
    b ≠ [] ∧ b.length ≤ batchSize := by
  suffices H : ∀ (n : ℕ) (syms : List String), syms.length = n →
      b ∈ createBatches syms batchSize → b ≠ [] ∧ b.length ≤ batchSize from
    H _ symbols rfl hb
  intro n
  induction n using Nat.strong_induction_on with
  | _ n ih =>
    intro syms hn hmem
    rcases eq_or_ne syms [] with rfl | hne
    · rw [createBatches_nil] at hmem
      exact absurd hmem (List.not_mem_nil b)
    · rw [createBatches_cons syms batchSize hne
        (Nat.pos_iff_ne_zero.mp h)] at hmem
      rcases List.mem_cons.mp hmem with rfl | hmem
      · refine ⟨?_, List.length_take_le _ _⟩
        have hpos : 0 < syms.length := List.length_pos.mpr hne
        have hlen : (syms.take batchSize).length = min batchSize syms.length :=
          List.length_take _ _
        intro hcon
        rw [hcon] at hlen
        simp only [List.length_nil] at hlen
        omega
      · have hlt : (syms.drop batchSize).length < n := by
          subst hn
          simp only [List.length_drop]
          have : 0 < syms.length := List.length_pos.mpr hne
          omega
        exact ih _ hlt _ rfl hmem

theorem createBatches_mem_subset (symbols : List String) (batchSize : ℕ)
    (h : 0 < batchSize) (b : List String)
    (hb : b ∈ createBatches symbols batchSize) : b ⊆ symbols := by
  intro a ha
  have := createBatches_flatten symbols batchSize h
  rw [← this]
  exact List.mem_flatten.2 ⟨b, hb, ha⟩

/-- A quote source that succeeds on every call: for any batch of symbols
not containing the empty string, the processed response carries exactly one
record per requested symbol, in order, each tagged with that symbol. -/
def ExactSource (oracle : List String → ℕ → List FetchResult) (now : ℕ) :
    Prop :=
  ∀ (symbols : List String) (attempt : ℕ), ("" : String) ∉ symbols →
    (getMultipleStocksData (oracle symbols attempt) now).map
      RealStockData.symbol = symbols

theorem convertToStock_ticker (r : RealStockData) (h : r.symbol ≠ "") :
    (convertToStock r).ticker = r.symbol := by
  simp [convertToStock, h]

theorem map_ticker_convert (realData : List RealStockData)
    (h : ∀ r ∈ realData, r.symbol ≠ "") :
    (realData.map convertToStock).map Stock.ticker =
      realData.map RealStockData.symbol := by
  rw [List.map_map]
  exact List.map_congr_left fun r hr => convertToStock_ticker r (h r hr)

namespace PersistentStockLoader

theorem loadBatchPersistent_exact
    (oracle : List String → ℕ → List FetchResult) (now maxRetries : ℕ)
    (h : ExactSource oracle now) (hmr : 0 < maxRetries)
    (symbols : List String) (hne : symbols ≠ [])
    (hns : ("" : String) ∉ symbols) :
    (loadBatchPersistent oracle now maxRetries symbols).map Stock.ticker =
      symbols := by
  obtain ⟨k, rfl⟩ : ∃ k, maxRetries = k + 1 := ⟨maxRetries - 1, by omega⟩
  have hsym := h symbols 1 hns
  have hlen :
      (getMultipleStocksData (oracle symbols 1) now).length =
        symbols.length := by
    have := congrArg List.length hsym
    simpa using this
  have hpos : 0 < (getMultipleStocksData (oracle symbols 1) now).length := by
    rw [hlen]
    exact List.length_pos.mpr hne
  unfold loadBatchPersistent loadBatchGo
  rw [if_pos hpos, map_ticker_convert _ ?_, hsym]
  intro r hr
  have : r.symbol ∈ symbols := by
    rw [← hsym]
    exact List.mem_map_of_mem RealStockData.symbol hr
  intro hcon
  rw [hcon] at this
  exact hns this

theorem loadBatchPersistent_exact_length
    (oracle : List String → ℕ → List FetchResult) (now maxRetries : ℕ)
    (h : ExactSource oracle now) (hmr : 0 < maxRetries)
    (symbols : List String) (hne : symbols ≠ [])
    (hns : ("" : String) ∉ symbols) :
    (loadBatchPersistent oracle now maxRetries symbols).length =
      symbols.length := by
  have := congrArg List.length
    (loadBatchPersistent_exact oracle now maxRetries h hmr symbols hne hns)
  simpa using this

end PersistentStockLoader





namespace PersistentStockLoader

theorem loadBatchGo_fail (oracle : List String → ℕ → List FetchResult)
    (now : ℕ) (symbols : List String)
    (hfail : ∀ s a, oracle s a = []) :
    ∀ (remaining attempt : ℕ),
      loadBatchGo oracle now symbols remaining attempt = [] := by
  intro remaining
  induction remaining with
  | zero => intro attempt; rfl
  | succ k ih =>
    intro attempt
    simp only [loadBatchGo, hfail, getMultipleStocksData, List.filterMap_nil,
      List.length_nil, lt_self_iff_false, if_false]
    exact ih (attempt + 1)

theorem loadBatchPersistent_fail (oracle : List String → ℕ → List FetchResult)
    (now mr : ℕ) (symbols : List String)
    (hfail : ∀ s a, oracle s a = []) :
    loadBatchPersistent oracle now mr symbols = [] :=
  loadBatchGo_fail oracle now symbols hfail mr 1

end PersistentStockLoader



namespace MegaStockLoader

/-- The mega loader loop contains no `onError` invocation at all. -/
theorem loadLoop_no_error (oracle : List String → ℕ → List FetchResult)
    (now mr totalLen : ℕ) :
    ∀ (batches : List (List String)) (acc : List Stock),
      (loadLoop oracle now mr totalLen batches acc).2.countP
        isErrorEvent = 0 := by
  intro batches
  induction batches with
  | nil => intro acc; simp [loadLoop, isErrorEvent]
  | cons b rest ih =>
    intro acc
    cases hlb : loadBatchWithRetry oracle now mr b with
    | none => simpa [loadLoop, hlb] using ih acc
    | some batchStocks =>
      simp only [loadLoop, hlb]
      simp [List.countP_cons, isErrorEvent, ih]

theorem loadAllStocks_no_error (oracle : List String → ℕ → List FetchResult)
    (now mr bs : ℕ) (cachedStocks : List Stock) (allSymbols : List String) :
    (loadAllStocks oracle now mr bs cachedStocks allSymbols).2.countP
      isErrorEvent = 0 := by
  simp only [loadAllStocks]
  by_cases hsc : 0 < cachedStocks.length ∧
      8 * allSymbols.length ≤ 10 * cachedStocks.length
  · simp only [hsc, if_true]
    by_cases hp : 0 < cachedStocks.length
    · simp [hp, List.countP_cons, List.countP_append, isErrorEvent]
    · simp [hp, List.countP_cons, List.countP_append, isErrorEvent]
  · simp only [hsc, if_false]
    by_cases hp : 0 < cachedStocks.length
    · simp [hp, List.countP_append, List.countP_cons, isErrorEvent,
        loadLoop_no_error]
    · simp [hp, List.countP_append, isErrorEvent, loadLoop_no_error]

end MegaStockLoader

/-- The progress payloads among a list of SP500 events. -/
def spProgressReports (events : List SPEvent) : List LoadingProgress :=
  events.filterMap fun e =>
    match e with
    | SPEvent.progress p => some p
    | _ => none

namespace SP500Loader

theorem loadBatchWithRetry_exact
    (oracle : List String → ℕ → List FetchResult) (now mr : ℕ)
    (h : ExactSource oracle now) (hmr : 0 < mr)
    (symbols : List String) (hne : symbols ≠ [])
    (hns : ("" : String) ∉ symbols) :
    (loadBatchWithRetry oracle now mr symbols).map Stock.ticker =
      symbols := by
  obtain ⟨k, rfl⟩ : ∃ k, mr = k + 1 := ⟨mr - 1, by omega⟩
  have hsym := h symbols 1 hns
  have hlen :
      (getMultipleStocksData (oracle symbols 1) now).length =
        symbols.length := by
    have := congrArg List.length hsym
    simpa using this
  have hpos : 0 < (getMultipleStocksData (oracle symbols 1) now).length := by
    rw [hlen]
    exact List.length_pos.mpr hne
  have hticker : ∀ r ∈ getMultipleStocksData (oracle symbols 1) now,
      r.symbol ≠ "" := by
    intro r hr hcon
    have : r.symbol ∈ symbols := by
      rw [← hsym]
      exact List.mem_map_of_mem RealStockData.symbol hr
    rw [hcon] at this
    exact hns this
  have hfilter :
      ((getMultipleStocksData (oracle symbols 1) now).map
          convertToStock).filter (fun s => !(s.ticker = "")) =
        (getMultipleStocksData (oracle symbols 1) now).map
          convertToStock := by
    apply List.filter_eq_self.mpr
    intro s hs
    obtain ⟨r, hr, rfl⟩ := List.mem_map.mp hs
    simp [convertToStock_ticker r (hticker r hr), hticker r hr]
  unfold loadBatchWithRetry loadBatchGo
  rw [if_pos hpos, hfilter, map_ticker_convert _ hticker, hsym]

/-- Every progress report of the SP500 batch loop carries the universe
size as `total` and the integer-rounded percentage of its own `loaded`
count. -/
theorem loadStocksInBatches_percentage
    (oracle : List String → ℕ → List FetchResult) (now mr universeLen : ℕ) :
    ∀ (batches : List (List String)) (loadedStocks : List Stock),
      ∀ p ∈ (loadStocksInBatches oracle now mr universeLen
          batches loadedStocks).2,
        p.total = universeLen ∧
          p.percentage = jsRound ((p.loaded : ℚ) / (universeLen : ℚ) * 100) := by
  intro batches
  induction batches with
  | nil =>
    intro loadedStocks p hp
    simp [loadStocksInBatches] at hp
  | cons b rest ih =>
    intro loadedStocks p hp
    by_cases hpos : 0 <
        (loadBatchWithRetry oracle now mr b).length
    · simp only [loadStocksInBatches, hpos, if_true, List.mem_cons] at hp
      rcases hp with rfl | hp
      · exact ⟨rfl, rfl⟩
      · exact ih _ p hp
    · simp only [loadStocksInBatches, hpos, if_false] at hp
      exact ih _ p hp

end SP500Loader

namespace SP500Loader

/-- Under an exact source, when the accumulated tickers plus the pending
batch symbols are duplicate-free and drawn from the universe, every
progress report of the batch loop reports a `loaded` count that cannot
exceed the universe size. -/
theorem loadStocksInBatches_loaded_le
    (oracle : List String → ℕ → List FetchResult) (now mr : ℕ)
    (univSymbols : List String) (h : ExactSource oracle now) (hmr : 0 < mr) :
    ∀ (batches : List (List String)) (loadedStocks : List Stock),
      (∀ b ∈ batches, b ≠ [] ∧ ("" : String) ∉ b) →
      (loadedStocks.map Stock.ticker ++ batches.flatten).Nodup →
      (∀ x ∈ loadedStocks.map Stock.ticker ++ batches.flatten,
        x ∈ univSymbols) →
      ∀ p ∈ (loadStocksInBatches oracle now mr univSymbols.length
          batches loadedStocks).2,
        p.loaded ≤ univSymbols.length := by
  intro batches
  induction batches with
  | nil =>
    intro loaded hb hnd hsub p hp
    simp [loadStocksInBatches] at hp
  | cons b rest ih =>
    intro loaded hb hnd hsub p hp
    obtain ⟨hbne, hbns⟩ := hb b (List.mem_cons_self b rest)
    have hmap := loadBatchWithRetry_exact oracle now mr h hmr b hbne hbns
    have hlen : (loadBatchWithRetry oracle now mr b).length = b.length := by
      have := congrArg List.length hmap
      simpa using this
    have hpos : 0 < (loadBatchWithRetry oracle now mr b).length := by
      rw [hlen]
      exact List.length_pos.mpr hbne
    have htick1 :
        (loaded ++ loadBatchWithRetry oracle now mr b).map Stock.ticker
          = loaded.map Stock.ticker ++ b := by
      rw [List.map_append, hmap]
    have hnd1 : ((loaded.map Stock.ticker ++ b) ++ rest.flatten).Nodup := by
      rw [List.append_assoc, ← List.flatten_cons]
      exact hnd
    have hsub1 : ∀ x ∈ (loaded.map Stock.ticker ++ b) ++ rest.flatten,
        x ∈ univSymbols := by
      intro x hx
      apply hsub
      rw [List.flatten_cons, ← List.append_assoc]
      exact hx
    simp only [loadStocksInBatches, hpos, if_true, List.mem_cons] at hp
    rcases hp with rfl | hp
    · show (loaded ++ loadBatchWithRetry oracle now mr b).length ≤
        univSymbols.length
      have hnd2 : (loaded.map Stock.ticker ++ b).Nodup :=
        hnd1.sublist (List.prefix_append _ _).sublist
      have hsub2 : (loaded.map Stock.ticker ++ b) ⊆ univSymbols := by
        intro x hx
        exact hsub1 x (List.mem_append_left _ hx)
      have hle : (loaded.map Stock.ticker ++ b).length ≤
          univSymbols.length :=
        (List.subperm_of_subset hnd2 hsub2).length_le
      have e1 : (loaded.map Stock.ticker).length = loaded.length :=
        List.length_map _ _
      have e2 := List.length_append (loaded.map Stock.ticker) b
      have e3 := List.length_append loaded
        (loadBatchWithRetry oracle now mr b)
      omega
    · refine ih (loaded ++ loadBatchWithRetry oracle now mr b)
        (fun b' hb' => hb b' (List.mem_cons_of_mem b hb')) ?_ ?_ p hp
      · rw [htick1]
        exact hnd1
      · rw [htick1]
        exact hsub1

end SP500Loader

/-! ## Concrete sources and records used as test inputs -/

/-- A fully-populated meta payload for symbol `s`. -/
def mkMeta (s : String) : YahooMeta :=
  { symbol := s
    longName := some (s ++ " Inc")
    regularMarketPrice := JSVal.val (JSNum.num 100)
    previousClose := JSVal.val (JSNum.num 80)
    regularMarketVolume := JSVal.val (JSNum.num 1000)
    marketCap := JSVal.val (JSNum.num 5000)
    trailingPE := JSVal.val (JSNum.num 10)
    dividendYield := JSVal.val (JSNum.num 2)
    sector := some "Technology" }

/-- A quote source that succeeds on every call with one fully-populated
record per requested symbol. -/
def goodOracle : List String → ℕ → List FetchResult := fun symbols _ =>
  symbols.map fun s =>
    { symbol := s, success := true, data := some (mkMeta s) }

/-- A quote source that rejects every call (the IPC layer returns
nothing). -/
def failOracle : List String → ℕ → List FetchResult := fun _ _ => []

/-- A ready-made converted stock record for symbol `s`. -/
def mkStock (s : String) : Stock :=
  { ticker := s
    name := s
    sector := "Technology"
    price := JSNum.num 100
    pe := some (JSNum.num 10)
    dividendYield := some (JSNum.num 2)
    marketCap := some (JSNum.num 5000)
    volume := JSNum.num 1000
    change := JSNum.num 20
    changePercent := JSNum.num 25 }

theorem getMultipleStocksData_goodOracle (now attempt : ℕ) :
    ∀ (symbols : List String), ("" : String) ∉ symbols →
      getMultipleStocksData (goodOracle symbols attempt) now =
        symbols.map fun s => multiStockDataRecord s (mkMeta s) now := by
  intro symbols
  induction symbols with
  | nil => intro _; rfl
  | cons s rest ih =>
    intro hns
    simp only [List.mem_cons, not_or] at hns
    obtain ⟨hs, hrest⟩ := hns
    have hs' : ¬ (s = "") := fun hcon => hs hcon.symm
    have ihr := ih hrest
    simp only [goodOracle, List.map_cons] at ihr ⊢
    unfold getMultipleStocksData at ihr ⊢
    rw [List.filterMap_cons]
    have hsym : (mkMeta s).symbol = s := rfl
    simp only [hsym, if_neg hs', if_true, ihr]

theorem goodOracle_exact (now : ℕ) : ExactSource goodOracle now := by
  intro symbols attempt hns
  rw [getMultipleStocksData_goodOracle now attempt symbols hns,
    List.map_map]
  have : ∀ s ∈ symbols,
      (RealStockData.symbol ∘ fun s => multiStockDataRecord s (mkMeta s) now)
        s = id s := fun s _ => rfl
  rw [List.map_congr_left this, List.map_id]

/-! ## Claim theorems -/

/-- A raw payload whose three valuation fields are all missing. -/
def metaNoValuations : YahooMeta :=
  { symbol := "AAPL"
    longName := some "Apple Inc"
    regularMarketPrice := JSVal.val (JSNum.num 100)
    previousClose := JSVal.val (JSNum.num 80)
    regularMarketVolume := JSVal.val (JSNum.num 1000)
    marketCap := JSVal.undef
    trailingPE := JSVal.undef
    dividendYield := JSVal.undef
    sector := some "Technology" }

/-- The same payload with genuine zero valuations. -/
def metaZeroValuations : YahooMeta :=
  { symbol := "AAPL"
    longName := some "Apple Inc"
    regularMarketPrice := JSVal.val (JSNum.num 100)
    previousClose := JSVal.val (JSNum.num 80)
    regularMarketVolume := JSVal.val (JSNum.num 1000)
    marketCap := JSVal.val (JSNum.num 0)
    trailingPE := JSVal.val (JSNum.num 0)
    dividendYield := JSVal.val (JSNum.num 0)
    sector := some "Technology" }

/-- **C1.**  The claimed invariant (optional valuation fields are never
fabricated; absence propagates as absence) is what the `Stock` interface
documents (`number | null`, comment `NO ESTIMATES`) and what the server
conversion implements, but the renderer conversion chain violates it: for
a payload with all three valuation fields missing, the record produced by
`getMultipleStocksData` followed by `convertToStock` carries `some 0` in
`pe`, `dividendYield` and `marketCap` — a synthetic default, not absence —
and is byte-for-byte identical to the record produced from a payload whose
true valuations are zero.  The single-symbol path shows the same
fabrication. -/
theorem C1_valuation_absence_fabricated_as_zero :
    (convertToStock (multiStockDataRecord "AAPL" metaNoValuations 0)).pe
        = some (JSNum.num 0)
      ∧ (convertToStock
          (multiStockDataRecord "AAPL" metaNoValuations 0)).dividendYield
        = some (JSNum.num 0)
      ∧ (convertToStock
          (multiStockDataRecord "AAPL" metaNoValuations 0)).marketCap
        = some (JSNum.num 0)
      ∧ (convertToStock
          (getYahooStockDataRecord "AAPL" metaNoValuations 0)).pe
        = some (JSNum.num 0)
      ∧ convertToStock (multiStockDataRecord "AAPL" metaNoValuations 0)
        = convertToStock (multiStockDataRecord "AAPL" metaZeroValuations 0) := by
  refine ⟨rfl, rfl, rfl, rfl, ?_⟩
  norm_num [convertToStock, multiStockDataRecord, getYahooStockDataRecord,
    metaNoValuations, metaZeroValuations, jsOr, jsOrStr, numOrZero,
    JSVal.truthy, JSNum.truthy, JSVal.toNum, jsSub, jsDiv, jsMul]

/-- A raw payload whose previous close is literally zero. -/
def metaZeroPrevClose : YahooMeta :=
  { symbol := "AAPL"
    longName := some "Apple Inc"
    regularMarketPrice := JSVal.val (JSNum.num 100)
    previousClose := JSVal.val (JSNum.num 0)
    regularMarketVolume := JSVal.val (JSNum.num 1000)
    marketCap := JSVal.val (JSNum.num 5000)
    trailingPE := JSVal.val (JSNum.num 10)
    dividendYield := JSVal.val (JSNum.num 2)
    sector := some "Technology" }

/-- A raw payload whose previous close is missing. -/
def metaAbsentPrevClose : YahooMeta :=
  { symbol := "AAPL"
    longName := some "Apple Inc"
    regularMarketPrice := JSVal.val (JSNum.num 100)
    previousClose := JSVal.undef
    regularMarketVolume := JSVal.val (JSNum.num 1000)
    marketCap := JSVal.val (JSNum.num 5000)
    trailingPE := JSVal.val (JSNum.num 10)
    dividendYield := JSVal.val (JSNum.num 2)
    sector := some "Technology" }

/-- **C8 counterexample.**  The claim says every constructed Quote Record
has percent change 0 whenever the previous close is 0 or absent; but the
record built by the single-symbol path `getYahooStockData` divides without
a guard, so a zero previous close yields +Infinity (and a missing one
yields NaN), not 0. -/
theorem C8_counterexample_unguarded_division :
    (getYahooStockDataRecord "AAPL" metaZeroPrevClose 0).changePercent
        = JSVal.val JSNum.posInf
      ∧ ¬ ((getYahooStockDataRecord "AAPL" metaZeroPrevClose 0).changePercent
        = JSVal.val (JSNum.num 0))
      ∧ (getYahooStockDataRecord "AAPL" metaAbsentPrevClose 0).changePercent
        = JSVal.val JSNum.nan := by
  have h1 : (getYahooStockDataRecord "AAPL" metaZeroPrevClose 0).changePercent
      = JSVal.val JSNum.posInf := by
    norm_num [getYahooStockDataRecord, metaZeroPrevClose, JSVal.toNum,
      jsSub, jsDiv, jsMul]
  refine ⟨h1, ?_, ?_⟩
  · rw [h1]
    decide
  · norm_num [getYahooStockDataRecord, metaAbsentPrevClose, JSVal.toNum,
      jsSub, jsDiv, jsMul]

/-- **C8 (amended).**  Records built by the batch path
(`getMultipleStocksData`) satisfy the claim: percent change equals
`(price - previousClose) / previousClose * 100` when the previous close is
a nonzero number and 0 when it is 0 or absent.  Records built by the
single-symbol path (`getYahooStockData`) compute the same formula without
the guard: a zero previous close under a positive price yields +Infinity
and a missing previous close yields NaN. -/
theorem C8_amended_changePercent (reqSymbol : String) (meta : YahooMeta)
    (now : ℕ) :
    (∀ p q : ℚ, jsOr meta.regularMarketPrice (JSNum.num 0) = JSNum.num p →
      meta.previousClose = JSVal.val (JSNum.num q) → q ≠ 0 →
      (multiStockDataRecord reqSymbol meta now).changePercent
        = JSVal.val (JSNum.num ((p - q) / q * 100)))
    ∧ ((meta.previousClose = JSVal.val (JSNum.num 0)
        ∨ meta.previousClose = JSVal.undef) →
      (multiStockDataRecord reqSymbol meta now).changePercent
        = JSVal.val (JSNum.num 0))
    ∧ (∀ p : ℚ, meta.regularMarketPrice = JSVal.val (JSNum.num p) → 0 < p →
      meta.previousClose = JSVal.val (JSNum.num 0) →
      (getYahooStockDataRecord reqSymbol meta now).changePercent
        = JSVal.val JSNum.posInf)
    ∧ (meta.previousClose = JSVal.undef →
      (getYahooStockDataRecord reqSymbol meta now).changePercent
        = JSVal.val JSNum.nan) := by
  refine ⟨?_, ?_, ?_, ?_⟩
  · intro p q hp hq hq0
    simp only [multiStockDataRecord, hq, hp, JSVal.truthy, JSNum.truthy,
      JSVal.toNum]
    simp [hq0, jsSub, jsDiv, jsMul]
  · intro hcase
    rcases hcase with hq | hq <;>
      simp [multiStockDataRecord, hq, JSVal.truthy, JSNum.truthy]
  · intro p hp hppos hq
    have hpne : ¬ (p = 0) := by
      intro hcon
      rw [hcon] at hppos
      exact lt_irrefl 0 hppos
    simp only [getYahooStockDataRecord, hp, hq, JSVal.toNum]
    simp [jsSub, jsDiv, jsMul, hpne, hppos]
  · intro hq
    have hsub : ∀ x : JSNum, jsSub x JSNum.nan = JSNum.nan := by
      intro x
      cases x <;> rfl
    simp [getYahooStockDataRecord, hq, JSVal.toNum, hsub, jsDiv, jsMul]

/-- **C8 witness.**  All four branches of the amended statement exercised
at concrete payloads. -/
theorem C8_amended_changePercent_witness :
    (multiStockDataRecord "AAPL" (mkMeta "AAPL") 0).changePercent
        = JSVal.val (JSNum.num 25)
      ∧ (multiStockDataRecord "AAPL" metaZeroPrevClose 0).changePercent
        = JSVal.val (JSNum.num 0)
      ∧ (getYahooStockDataRecord "AAPL" metaZeroPrevClose 0).changePercent
        = JSVal.val JSNum.posInf
      ∧ (getYahooStockDataRecord "AAPL" metaAbsentPrevClose 0).changePercent
        = JSVal.val JSNum.nan := by
  refine ⟨?_, ?_, ?_, ?_⟩
  · have h := (C8_amended_changePercent "AAPL" (mkMeta "AAPL") 0).1 100 80
      rfl rfl (by norm_num)
    exact h.trans (by norm_num)
  · exact (C8_amended_changePercent "AAPL" metaZeroPrevClose 0).2.1
      (Or.inl rfl)
  · exact (C8_amended_changePercent "AAPL" metaZeroPrevClose 0).2.2.1 100
      rfl (by norm_num) rfl
  · exact (C8_amended_changePercent "AAPL" metaAbsentPrevClose 0).2.2.2 rfl

/-- **C10.**  For every symbol list and positive batch size, the batches
produced by `createBatches` concatenate back to exactly the input list,
and every batch is nonempty with length at most the batch size. -/
theorem C10_createBatches_partition (symbols : List String) (batchSize : ℕ)
    (h : 0 < batchSize) :
    (createBatches symbols batchSize).flatten = symbols
      ∧ ∀ b ∈ createBatches symbols batchSize,
          b ≠ [] ∧ b.length ≤ batchSize :=
  ⟨createBatches_flatten symbols batchSize h,
    fun b hb => createBatches_mem symbols batchSize h b hb⟩

/-- **C10 witness.** -/
theorem C10_createBatches_partition_witness :
    (0 : ℕ) < 2
      ∧ ((createBatches ["AAA", "BBB", "CCC"] 2).flatten
            = ["AAA", "BBB", "CCC"]
        ∧ ∀ b ∈ createBatches ["AAA", "BBB", "CCC"] 2,
            b ≠ [] ∧ b.length ≤ 2) :=
  ⟨by decide, C10_createBatches_partition ["AAA", "BBB", "CCC"] 2 (by decide)⟩

theorem getRemainingSymbols_nil (allSymbols : List String) :
    getRemainingSymbols allSymbols [] = allSymbols := by
  simp [getRemainingSymbols]

namespace PersistentStockLoader

/-- No run of the batch loop emits a progress event: the two in-loop
`onProgress` calls sit behind the `allSymbols` ReferenceError and never
execute. -/
theorem processSymbols_no_progress
    (oracle : List String → ℕ → List FetchResult) (now mr mcf : ℕ)
    (batches : List (List String)) (st : State) :
    progressLoads ((processSymbolsPersistent oracle now mr mcf
      batches st).2.1) = [] := by
  cases batches with
  | nil => rfl
  | cons b rest =>
    by_cases hpos : 0 < (loadBatchPersistent oracle now mr b).length
    · simp only [processSymbolsPersistent, hpos, if_true]
      split
      · rfl
      · rfl
    · simp only [processSymbolsPersistent, hpos, if_false]
      split
      · rfl
      · rfl

/-- Every run of the batch loop ends in exactly one of three ways: no
batch to fetch, with a single `complete` event carrying the accumulated
list; a first batch processed with nothing accumulated, with a single
`error` event carrying the ReferenceError; or a first batch processed
with data present, with no event at all and a rejected promise. -/
theorem processSymbols_outcomes
    (oracle : List String → ℕ → List FetchResult) (now mr mcf : ℕ)
    (batches : List (List String)) (st : State) :
    ((processSymbolsPersistent oracle now mr mcf batches st).2.2
        = RunOutcome.returned
      ∧ (processSymbolsPersistent oracle now mr mcf
          batches st).2.1.countP isCompleteEvent = 1
      ∧ (processSymbolsPersistent oracle now mr mcf
          batches st).2.1.countP isErrorEvent = 0
      ∧ LoaderEvent.complete ((processSymbolsPersistent oracle now mr mcf
          batches st).1.allStocks) ∈
          (processSymbolsPersistent oracle now mr mcf batches st).2.1)
    ∨ ((processSymbolsPersistent oracle now mr mcf batches st).2.2
        = RunOutcome.returned
      ∧ (processSymbolsPersistent oracle now mr mcf
          batches st).2.1.countP isCompleteEvent = 0
      ∧ (processSymbolsPersistent oracle now mr mcf
          batches st).2.1.countP isErrorEvent = 1)
    ∨ ((processSymbolsPersistent oracle now mr mcf batches st).2.2
        = RunOutcome.rejected allSymbolsReferenceError
      ∧ (processSymbolsPersistent oracle now mr mcf batches st).2.1
        = []) := by
  cases batches with
  | nil =>
    left
    simp [processSymbolsPersistent, isCompleteEvent, isErrorEvent]
  | cons b rest =>
    by_cases hpos : 0 < (loadBatchPersistent oracle now mr b).length
    · simp only [processSymbolsPersistent, hpos, if_true]
      split
      · right
        right
        exact ⟨rfl, rfl⟩
      · right
        left
        refine ⟨rfl, ?_, ?_⟩ <;>
          simp [List.countP_cons, isCompleteEvent, isErrorEvent]
    · simp only [processSymbolsPersistent, hpos, if_false]
      split
      · right
        right
        exact ⟨rfl, rfl⟩
      · right
        left
        refine ⟨rfl, ?_, ?_⟩ <;>
          simp [List.countP_cons, isCompleteEvent, isErrorEvent]

end PersistentStockLoader

/-- **C9.**  Within a single run of the persistent loader's load
operation, the `loadedCount` values passed to successive `onProgress`
invocations form a non-decreasing sequence — trivially so: the only
`onProgress` call that ever executes is the cache report in
`loadAllStocks` (line 38), because both in-loop calls die on the
out-of-scope `allSymbols` before being invoked, so at most one progress
report is emitted per run. -/
theorem C9_progress_monotone (oracle : List String → ℕ → List FetchResult)
    (now mr mcf bs : ℕ) (cachedStocks : List Stock) (cf0 : ℕ)
    (allSymbols : List String) :
    List.Chain' (· ≤ ·) (progressLoads
      ((PersistentStockLoader.loadAllStocks oracle now mr mcf bs
        cachedStocks cf0 allSymbols).2.1))
    ∧ (progressLoads ((PersistentStockLoader.loadAllStocks oracle now mr
        mcf bs cachedStocks cf0 allSymbols).2.1)).length ≤ 1 := by
  simp only [PersistentStockLoader.loadAllStocks]
  by_cases hsc : 0 < cachedStocks.length ∧
      allSymbols.length ≤ 10 * cachedStocks.length
  · obtain ⟨hp, hq⟩ := hsc
    simp [hp, hq, progressLoads]
  · simp only [hsc, if_false]
    have hloop := PersistentStockLoader.processSymbols_no_progress oracle
      now mr mcf
      (createBatches (getRemainingSymbols allSymbols cachedStocks) bs)
      { allStocks := cachedStocks, consecutiveFailures := cf0,
        failureCount := 0 }
    by_cases hp : 0 < cachedStocks.length
    · simp only [hp, if_true, progressLoads, List.filterMap_append,
        List.filterMap_cons, List.filterMap_nil] at hloop ⊢
      rw [hloop]
      exact ⟨List.chain'_singleton _, by simp⟩
    · simp only [hp, if_false, progressLoads, List.filterMap_append,
        List.filterMap_nil, List.nil_append] at hloop ⊢
      rw [hloop]
      exact ⟨List.chain'_nil, by simp⟩

/-- **C2 counterexample.**  The claim says `onComplete` is invoked exactly
once, with the full accumulated set, when the run ends with its batches
exhausted.  A fresh run over one batch against an always-succeeding source
fetches and merges its only batch, then dies evaluating the out-of-scope
`allSymbols` in the progress report (line 97) and again in the catch
(line 119): the promise rejects, and neither `onComplete` nor `onError`
is ever invoked — the accumulated set is never delivered. -/
theorem C2_counterexample_run_dies_without_callbacks :
    ((PersistentStockLoader.loadAllStocks goodOracle 0 3 10 5 [] 0
        ["AAA"]).2.1.countP isCompleteEvent = 0)
      ∧ ((PersistentStockLoader.loadAllStocks goodOracle 0 3 10 5 [] 0
        ["AAA"]).2.1.countP isErrorEvent = 0)
      ∧ ((PersistentStockLoader.loadAllStocks goodOracle 0 3 10 5 [] 0
        ["AAA"]).2.2 = RunOutcome.rejected allSymbolsReferenceError) := by
  decide

/-- **C2 (amended).**  A run of the persistent loader's load operation
invokes `onComplete` exactly once, with the accumulated set, only when it
short-circuits on the cache or has no batch left to fetch.  Any run that
fetches a batch dies during its first iteration's progress report (the
out-of-scope `allSymbols`, lines 97 and 119): with nothing accumulated it
invokes `onError` exactly once, carrying the ReferenceError; with data
accumulated its promise rejects and neither callback is invoked.  The
consecutive-failure-ceiling path of the claim is unreachable. -/
theorem C2_amended_run_outcomes
    (oracle : List String → ℕ → List FetchResult) (now mr mcf bs : ℕ)
    (cachedStocks : List Stock) (cf0 : ℕ) (allSymbols : List String) :
    (((PersistentStockLoader.loadAllStocks oracle now mr mcf bs cachedStocks
          cf0 allSymbols).2.2 = RunOutcome.returned)
      ∧ ((PersistentStockLoader.loadAllStocks oracle now mr mcf bs
          cachedStocks cf0 allSymbols).2.1.countP isCompleteEvent = 1)
      ∧ ((PersistentStockLoader.loadAllStocks oracle now mr mcf bs
          cachedStocks cf0 allSymbols).2.1.countP isErrorEvent = 0)
      ∧ LoaderEvent.complete ((PersistentStockLoader.loadAllStocks oracle
          now mr mcf bs cachedStocks cf0 allSymbols).1.allStocks) ∈
          (PersistentStockLoader.loadAllStocks oracle now mr mcf bs
            cachedStocks cf0 allSymbols).2.1)
    ∨ (((PersistentStockLoader.loadAllStocks oracle now mr mcf bs
          cachedStocks cf0 allSymbols).2.2 = RunOutcome.returned)
      ∧ ((PersistentStockLoader.loadAllStocks oracle now mr mcf bs
          cachedStocks cf0 allSymbols).2.1.countP isCompleteEvent = 0)
      ∧ ((PersistentStockLoader.loadAllStocks oracle now mr mcf bs
          cachedStocks cf0 allSymbols).2.1.countP isErrorEvent = 1))
    ∨ (((PersistentStockLoader.loadAllStocks oracle now mr mcf bs
          cachedStocks cf0 allSymbols).2.2
          = RunOutcome.rejected allSymbolsReferenceError)
      ∧ ((PersistentStockLoader.loadAllStocks oracle now mr mcf bs
          cachedStocks cf0 allSymbols).2.1.countP isCompleteEvent = 0)
      ∧ ((PersistentStockLoader.loadAllStocks oracle now mr mcf bs
          cachedStocks cf0 allSymbols).2.1.countP isErrorEvent = 0)) := by
  simp only [PersistentStockLoader.loadAllStocks]
  by_cases hsc : 0 < cachedStocks.length ∧
      allSymbols.length ≤ 10 * cachedStocks.length
  · left
    obtain ⟨hp, hq⟩ := hsc
    simp [hp, hq, List.countP_append, List.countP_cons, isCompleteEvent,
      isErrorEvent]
  · simp only [hsc, if_false]
    rcases PersistentStockLoader.processSymbols_outcomes oracle now mr mcf
        (createBatches (getRemainingSymbols allSymbols cachedStocks) bs)
        { allStocks := cachedStocks, consecutiveFailures := cf0,
          failureCount := 0 } with
      ⟨h0, h1, h2, h3⟩ | ⟨h0, h1, h2⟩ | ⟨h0, h1⟩
    · left
      by_cases hp : 0 < cachedStocks.length <;>
        simp [hp, List.countP_append, List.countP_cons, isCompleteEvent,
          isErrorEvent, h0, h1, h2, h3]
    · right
      left
      by_cases hp : 0 < cachedStocks.length <;>
        simp [hp, List.countP_append, List.countP_cons, isCompleteEvent,
          isErrorEvent, h0, h1, h2]
    · right
      right
      by_cases hp : 0 < cachedStocks.length <;>
        simp [hp, List.countP_append, List.countP_cons, isCompleteEvent,
          isErrorEvent, h0, h1]

/-- Eleven symbols: more than ten times a one-stock cache, so the 10
percent short-circuit does not fire. -/
def elevenSymbols : List String :=
  ["A1", "A2", "A3", "A4", "A5", "A6", "A7", "A8", "A9", "B1", "B2"]

/-- **C3 counterexample.**  The claim says a source that rejects every
call makes the loader invoke `onError` within the ceiling.  A run primed
with one cached record (below the 10 percent threshold for eleven
requested symbols) processes one failing batch, reaches the catch with
data present, and rejects at line 119: the run terminates with no
`onError` (and no `onComplete`) ever invoked. -/
theorem C3_counterexample_cached_failure_run_no_onError :
    ((PersistentStockLoader.loadAllStocks failOracle 0 3 10 5
        [mkStock "ZZZ"] 0 elevenSymbols).2.1.countP isErrorEvent = 0)
      ∧ ((PersistentStockLoader.loadAllStocks failOracle 0 3 10 5
        [mkStock "ZZZ"] 0 elevenSymbols).2.1.countP isCompleteEvent = 0)
      ∧ ((PersistentStockLoader.loadAllStocks failOracle 0 3 10 5
        [mkStock "ZZZ"] 0 elevenSymbols).2.2
        = RunOutcome.rejected allSymbolsReferenceError) := by
  decide

/-- **C3 (amended).**  Under a source that rejects every call, the
persistent loader terminates after exactly one batch attempt, far below
the ceiling: a fresh (empty-cache) run with at least one batch invokes
`onError` exactly once — carrying the line-97 ReferenceError rather than
a failure-count error — with nothing accumulated and `failureCount` 1; a
cache-primed run instead rejects with no callback (see the
counterexample).  The mega loader processes all its batches and never
invokes `onError` under any source. -/
theorem C3_amended_single_attempt_failure
    (oracle : List String → ℕ → List FetchResult) (now mr mcf bs : ℕ)
    (allSymbols : List String) (hfail : ∀ s a, oracle s a = [])
    (hne : createBatches allSymbols bs ≠ []) :
    ((PersistentStockLoader.loadAllStocks oracle now mr mcf bs [] 0
        allSymbols).2.1.countP isErrorEvent = 1)
    ∧ ((PersistentStockLoader.loadAllStocks oracle now mr mcf bs [] 0
        allSymbols).2.1.countP isCompleteEvent = 0)
    ∧ ((PersistentStockLoader.loadAllStocks oracle now mr mcf bs [] 0
        allSymbols).2.2 = RunOutcome.returned)
    ∧ ((PersistentStockLoader.loadAllStocks oracle now mr mcf bs [] 0
        allSymbols).1.allStocks = [])
    ∧ ((PersistentStockLoader.loadAllStocks oracle now mr mcf bs [] 0
        allSymbols).1.failureCount = 1)
    ∧ ∀ (oracle2 : List String → ℕ → List FetchResult)
        (now2 mr2 bs2 : ℕ) (cached2 : List Stock) (syms2 : List String),
        (MegaStockLoader.loadAllStocks oracle2 now2 mr2 bs2 cached2
          syms2).2.countP isErrorEvent = 0 := by
  have hnotsc : ¬ (0 < ([] : List Stock).length ∧
      allSymbols.length ≤ 10 * ([] : List Stock).length) := by
    simp
  obtain ⟨b, rest, hbat⟩ := List.exists_cons_of_ne_nil hne
  have hempty := PersistentStockLoader.loadBatchPersistent_fail oracle now
    mr b hfail
  have hpos : ¬ (0 < (PersistentStockLoader.loadBatchPersistent oracle now
      mr b).length) := by
    rw [hempty]
    simp
  refine ⟨?_, ?_, ?_, ?_, ?_, ?_⟩
  · simp only [PersistentStockLoader.loadAllStocks, hnotsc, if_false,
      getRemainingSymbols_nil, hbat,
      PersistentStockLoader.processSymbolsPersistent, hpos]
    simp [List.countP_cons, isErrorEvent]
  · simp only [PersistentStockLoader.loadAllStocks, hnotsc, if_false,
      getRemainingSymbols_nil, hbat,
      PersistentStockLoader.processSymbolsPersistent, hpos]
    simp [List.countP_cons, isCompleteEvent]
  · simp only [PersistentStockLoader.loadAllStocks, hnotsc, if_false,
      getRemainingSymbols_nil, hbat,
      PersistentStockLoader.processSymbolsPersistent, hpos]
    simp
  · simp only [PersistentStockLoader.loadAllStocks, hnotsc, if_false,
      getRemainingSymbols_nil, hbat,
      PersistentStockLoader.processSymbolsPersistent, hpos]
    simp
  · simp only [PersistentStockLoader.loadAllStocks, hnotsc, if_false,
      getRemainingSymbols_nil, hbat,
      PersistentStockLoader.processSymbolsPersistent, hpos]
    simp
  · intro oracle2 now2 mr2 bs2 cached2 syms2
    exact MegaStockLoader.loadAllStocks_no_error oracle2 now2 mr2 bs2
      cached2 syms2

/-- **C3 witness.** -/
theorem C3_amended_single_attempt_failure_witness :
    (PersistentStockLoader.loadAllStocks failOracle 0 3 10 5 [] 0
      ["AAA", "BBB", "CCC", "DDD", "EEE"]).2.1.countP isErrorEvent = 1 :=
  (C3_amended_single_attempt_failure failOracle 0 3 10 5
    ["AAA", "BBB", "CCC", "DDD", "EEE"] (fun _ _ => rfl) (by decide)).1

namespace BatchStockLoader

theorem loadBatchWithRetry_exact_some
    (oracle : List String → ℕ → List FetchResult) (now mr : ℕ)
    (h : ExactSource oracle now) (hmr : 0 < mr)
    (symbols : List String) (hne : symbols ≠ [])
    (hns : ("" : String) ∉ symbols) :
    loadBatchWithRetry oracle now mr symbols =
      some ((getMultipleStocksData (oracle symbols 1) now).map
        convertToStock) := by
  obtain ⟨k, rfl⟩ : ∃ k, mr = k + 1 := ⟨mr - 1, by omega⟩
  have hsym := h symbols 1 hns
  have hlen :
      (getMultipleStocksData (oracle symbols 1) now).length =
        symbols.length := by
    have := congrArg List.length hsym
    simpa using this
  have hpos : 0 < (getMultipleStocksData (oracle symbols 1) now).length := by
    rw [hlen]
    exact List.length_pos.mpr hne
  unfold loadBatchWithRetry loadBatchGo
  rw [if_pos hpos]

/-- Under an always-succeeding exact source the cacheless batch loop
consumes every batch, appending one record per requested symbol, and
finishes with a single `complete` event carrying the final list. -/
theorem loadLoop_exact (oracle : List String → ℕ → List FetchResult)
    (now mr totalLen : ℕ) (h : ExactSource oracle now) (hmr : 0 < mr) :
    ∀ (batches : List (List String)) (acc : List Stock),
      (∀ b ∈ batches, b ≠ [] ∧ ("" : String) ∉ b) →
      ((loadLoop oracle now mr totalLen batches acc).1.map Stock.ticker
          = acc.map Stock.ticker ++ batches.flatten)
        ∧ (loadLoop oracle now mr totalLen batches acc).2.countP
            isCompleteEvent = 1
        ∧ LoaderEvent.complete
            ((loadLoop oracle now mr totalLen batches acc).1) ∈
            (loadLoop oracle now mr totalLen batches acc).2 := by
  intro batches
  induction batches with
  | nil =>
    intro acc hb
    simp [loadLoop, isCompleteEvent]
  | cons b rest ih =>
    intro acc hb
    obtain ⟨hbne, hbns⟩ := hb b (List.mem_cons_self b rest)
    have hsome := loadBatchWithRetry_exact_some oracle now mr h hmr b hbne
      hbns
    have hsym := h b 1 hbns
    have hlen : ((getMultipleStocksData (oracle b 1) now).map
        convertToStock).length = b.length := by
      have := congrArg List.length hsym
      simpa using this
    have hpos : 0 < ((getMultipleStocksData (oracle b 1) now).map
        convertToStock).length := by
      rw [hlen]
      exact List.length_pos.mpr hbne
    have htick : ((getMultipleStocksData (oracle b 1) now).map
        convertToStock).map Stock.ticker = b := by
      rw [map_ticker_convert _ ?_, hsym]
      intro r hr
      have : r.symbol ∈ b := by
        rw [← hsym]
        exact List.mem_map_of_mem RealStockData.symbol hr
      intro hcon
      rw [hcon] at this
      exact hbns this
    simp only [loadLoop, hsome, hpos, if_true]
    obtain ⟨ih1, ih2, ih3⟩ := ih
      (acc ++ (getMultipleStocksData (oracle b 1) now).map convertToStock)
      (fun b' hb' => hb b' (List.mem_cons_of_mem b hb'))
    refine ⟨?_, ?_, ?_⟩
    · rw [ih1, List.map_append, htick, List.flatten_cons, List.append_assoc]
    · simp [List.countP_cons, isCompleteEvent, ih2]
    · exact List.mem_cons_of_mem _ ih3

end BatchStockLoader

namespace SP500Loader

/-- The SP500 accumulated list is append-only: the batch loop only ever
extends `loadedStocks`. -/
theorem loadStocksInBatches_prefix
    (oracle : List String → ℕ → List FetchResult) (now mr universeLen : ℕ) :
    ∀ (batches : List (List String)) (loadedStocks : List Stock),
      loadedStocks <+: (loadStocksInBatches oracle now mr universeLen
        batches loadedStocks).1 := by
  intro batches
  induction batches with
  | nil => intro ls; exact List.prefix_refl _
  | cons b rest ih =>
    intro ls
    by_cases hpos : 0 < (loadBatchWithRetry oracle now mr b).length
    · simp only [loadStocksInBatches, hpos, if_true]
      have h2 := ih (ls ++ loadBatchWithRetry oracle now mr b)
      exact List.IsPrefix.trans (List.prefix_append _ _) h2
    · simp only [loadStocksInBatches, hpos, if_false]
      exact ih ls

/-- Under an always-succeeding exact source the SP500 batch loop consumes
every batch, appending one record per requested symbol: the final tickers
extend the initial ones with the concatenation of all batches. -/
theorem loadStocksInBatches_exact
    (oracle : List String → ℕ → List FetchResult) (now mr universeLen : ℕ)
    (h : ExactSource oracle now) (hmr : 0 < mr) :
    ∀ (batches : List (List String)) (loadedStocks : List Stock),
      (∀ b ∈ batches, b ≠ [] ∧ ("" : String) ∉ b) →
      (loadStocksInBatches oracle now mr universeLen
          batches loadedStocks).1.map Stock.ticker
        = loadedStocks.map Stock.ticker ++ batches.flatten := by
  intro batches
  induction batches with
  | nil =>
    intro ls hb
    simp [loadStocksInBatches]
  | cons b rest ih =>
    intro ls hb
    obtain ⟨hbne, hbns⟩ := hb b (List.mem_cons_self b rest)
    have hmap := loadBatchWithRetry_exact oracle now mr h hmr b hbne hbns
    have hlen : (loadBatchWithRetry oracle now mr b).length = b.length := by
      have := congrArg List.length hmap
      simpa using this
    have hpos : 0 < (loadBatchWithRetry oracle now mr b).length := by
      rw [hlen]
      exact List.length_pos.mpr hbne
    simp only [loadStocksInBatches, hpos, if_true]
    rw [ih (ls ++ loadBatchWithRetry oracle now mr b)
      (fun b2 hb2 => hb b2 (List.mem_cons_of_mem b hb2))]
    rw [List.map_append, hmap, List.flatten_cons, List.append_assoc]

end SP500Loader

/-- Six symbols: two batches at the SP500 batch size of 5. -/
def sixSymbols : List String := ["S1", "S2", "S3", "S4", "S5", "S6"]

/-- A quote source that resolves every requested symbol to the same
instrument: each record comes back keyed `DUP` whatever was asked (symbol
aliasing, e.g. share classes normalised by the upstream API). -/
def aliasOracle : List String → ℕ → List FetchResult := fun symbols _ =>
  symbols.map fun s =>
    { symbol := s, success := true, data := some (mkMeta "DUP") }

/-- **C4 counterexample.**  The claim says the accumulated set is keyed
by symbol, duplicates overwrite, and the final record per symbol is the
most recently fetched.  The SP500 loader accumulates with `push` into a
plain array: when the source resolves the requested symbols of two
separate batches to the same instrument key, the run completes with six
records for one symbol — nothing is overwritten. -/
theorem C4_counterexample_alias_duplicates_kept :
    (((SP500Loader.loadAllStocks aliasOracle 0 3 sixSymbols []
        []).1.map Stock.ticker)
      = ["DUP", "DUP", "DUP", "DUP", "DUP", "DUP"])
      ∧ ¬ (((SP500Loader.loadAllStocks aliasOracle 0 3 sixSymbols []
        []).1.map Stock.ticker).Nodup) := by
  decide

/-- **C4 (amended).**  The accumulated result set is an append-only array
extended with `push`, not a symbol-keyed map: records are never
overwritten and there is no last-write-wins.  Duplicate avoidance comes
solely from excluding already-processed request symbols from the
remaining fetch set, so the SP500 loader (the cited variant whose loop
completes) yields at most one record per symbol exactly when the source
answers each request under its own symbol key with duplicate-free cache
and universe; a symbol obtained from more than one fetch stays duplicated
(see the counterexample).  The persistent loader's fetching loop aborts
during its first batch (out-of-scope `allSymbols`, lines 97/119), so its
accumulated set beyond the cache is never delivered at all. -/
theorem C4_amended_append_only_sp500
    (oracle : List String → ℕ → List FetchResult) (now mr : ℕ)
    (univSymbols : List String) (loaded0 : List Stock)
    (h : ExactSource oracle now) (hmr : 0 < mr)
    (hund : univSymbols.Nodup) (hns : ("" : String) ∉ univSymbols)
    (hlnd : (loaded0.map Stock.ticker).Nodup) :
    (∀ (batches : List (List String)) (acc : List Stock),
      acc <+: (SP500Loader.loadStocksInBatches oracle now mr
        univSymbols.length batches acc).1)
    ∧ (((SP500Loader.loadAllStocks oracle now mr univSymbols loaded0
        (loaded0.map Stock.ticker)).1.map Stock.ticker).Nodup) := by
  constructor
  · intro batches acc
    exact SP500Loader.loadStocksInBatches_prefix oracle now mr
      univSymbols.length batches acc
  · unfold SP500Loader.loadAllStocks
    split
    · exact hlnd
    · split
      · exact hlnd
      · dsimp only
        split
        · exact hlnd
        · have hbs5 : (0 : ℕ) < 5 := by norm_num
          have hrsub : (univSymbols.filter fun s =>
              !((loaded0.map Stock.ticker).contains s)) ⊆ univSymbols := by
            intro x hx
            exact (List.mem_filter.mp hx).1
          have hbatches : ∀ b ∈ createBatches
              (univSymbols.filter fun s =>
                !((loaded0.map Stock.ticker).contains s)) 5,
              b ≠ [] ∧ ("" : String) ∉ b := by
            intro b hb
            refine ⟨(createBatches_mem _ 5 hbs5 b hb).1, ?_⟩
            intro hcon
            exact hns (hrsub (createBatches_mem_subset _ 5 hbs5 b hb hcon))
          rw [SP500Loader.loadStocksInBatches_exact oracle now mr
            univSymbols.length h hmr _ loaded0 hbatches,
            createBatches_flatten _ 5 hbs5]
          refine List.Nodup.append hlnd (hund.filter _) ?_
          intro a ha hb2
          simp [List.mem_filter] at hb2
          obtain ⟨s, hs, rfl⟩ := List.mem_map.mp ha
          exact hb2.2 s hs rfl

/-- **C4 witness.** -/
theorem C4_amended_append_only_sp500_witness :
    ((SP500Loader.loadAllStocks goodOracle 0 3 ["AAA", "BBB"] []
      (([] : List Stock).map Stock.ticker)).1.map Stock.ticker).Nodup :=
  (C4_amended_append_only_sp500 goodOracle 0 3 ["AAA", "BBB"] []
    (goodOracle_exact 0) (by decide) (by decide) (by decide) (by decide)).2

/-- **C5 counterexample.**  The claim asserts that when the source
succeeds on every call with one record per requested symbol, `onComplete`
carries exactly the input symbol set.  A fresh persistent-loader run over
two symbols against such a source fetches and merges its only batch, then
dies on the out-of-scope `allSymbols` (lines 97 then 119): the promise
rejects, no event is emitted, and `onComplete` never fires at all. -/
theorem C5_counterexample_fresh_run_rejects :
    ((PersistentStockLoader.loadAllStocks goodOracle 0 3 10 5 [] 0
        ["AAA", "BBB"]).2.1 = [])
      ∧ ((PersistentStockLoader.loadAllStocks goodOracle 0 3 10 5 [] 0
        ["AAA", "BBB"]).2.1.countP isCompleteEvent = 0)
      ∧ ((PersistentStockLoader.loadAllStocks goodOracle 0 3 10 5 [] 0
        ["AAA", "BBB"]).2.2
        = RunOutcome.rejected allSymbolsReferenceError) := by
  decide

/-- **C5 (amended).**  Completeness under no failures holds for the
cacheless batch loader: given a source that succeeds on every call with
one record per requested symbol, `BatchStockLoader.loadAllStocks` invokes
`onComplete` exactly once with a record set whose ticker list equals the
input symbol list.  The persistent loader never achieves it: a fresh run
over a non-empty input rejects at its first progress report
(out-of-scope `allSymbols`) and `onComplete` is never invoked. -/
theorem C5_amended_batch_loader_completeness
    (oracle : List String → ℕ → List FetchResult) (now mr mcf bs : ℕ)
    (allSymbols : List String) (h : ExactSource oracle now) (hmr : 0 < mr)
    (hbs : 0 < bs) (hne : allSymbols ≠ [])
    (hns : ("" : String) ∉ allSymbols) :
    (((BatchStockLoader.loadAllStocks oracle now mr bs
          allSymbols).1.map Stock.ticker) = allSymbols
      ∧ (BatchStockLoader.loadAllStocks oracle now mr bs
          allSymbols).2.countP isCompleteEvent = 1
      ∧ LoaderEvent.complete ((BatchStockLoader.loadAllStocks oracle now mr
          bs allSymbols).1) ∈
          (BatchStockLoader.loadAllStocks oracle now mr bs allSymbols).2)
    ∧ (((PersistentStockLoader.loadAllStocks oracle now mr mcf bs [] 0
          allSymbols).2.1.countP isCompleteEvent = 0)
      ∧ (PersistentStockLoader.loadAllStocks oracle now mr mcf bs [] 0
          allSymbols).2.2
          = RunOutcome.rejected allSymbolsReferenceError) := by
  have hbatches : ∀ b ∈ createBatches allSymbols bs,
      b ≠ [] ∧ ("" : String) ∉ b := by
    intro b hb
    refine ⟨(createBatches_mem _ bs hbs b hb).1, ?_⟩
    intro hcon
    exact hns (createBatches_mem_subset _ bs hbs b hb hcon)
  constructor
  · obtain ⟨ht, hcomp, hmem⟩ :=
      BatchStockLoader.loadLoop_exact oracle now mr allSymbols.length h hmr
        (createBatches allSymbols bs) [] hbatches
    refine ⟨?_, ?_, ?_⟩
    · simpa [BatchStockLoader.loadAllStocks,
        createBatches_flatten allSymbols bs hbs] using ht
    · simpa [BatchStockLoader.loadAllStocks] using hcomp
    · simpa [BatchStockLoader.loadAllStocks] using hmem
  · have hnotsc : ¬ (0 < ([] : List Stock).length ∧
        allSymbols.length ≤ 10 * ([] : List Stock).length) := by
      simp
    have hbne : createBatches allSymbols bs ≠ [] := by
      rw [createBatches_cons allSymbols bs hne (Nat.pos_iff_ne_zero.mp hbs)]
      exact List.cons_ne_nil _ _
    obtain ⟨b, rest, hbat⟩ := List.exists_cons_of_ne_nil hbne
    have hbprop : b ≠ [] ∧ ("" : String) ∉ b := by
      apply hbatches
      rw [hbat]
      exact List.mem_cons_self b rest
    have hlen := PersistentStockLoader.loadBatchPersistent_exact_length
      oracle now mr h hmr b hbprop.1 hbprop.2
    have hpos : 0 < (PersistentStockLoader.loadBatchPersistent oracle now
        mr b).length := by
      rw [hlen]
      exact List.length_pos.mpr hbprop.1
    have hpos2 : 0 < (([] : List Stock) ++
        PersistentStockLoader.loadBatchPersistent oracle now mr
          b).length := by
      simpa using hpos
    constructor
    · simp only [PersistentStockLoader.loadAllStocks, hnotsc, if_false,
        getRemainingSymbols_nil, hbat,
        PersistentStockLoader.processSymbolsPersistent, hpos, if_true]
      simp [hpos, hpos2]
    · simp only [PersistentStockLoader.loadAllStocks, hnotsc, if_false,
        getRemainingSymbols_nil, hbat,
        PersistentStockLoader.processSymbolsPersistent, hpos, if_true]
      simp [hpos, hpos2]

/-- **C5 witness.** -/
theorem C5_amended_batch_loader_completeness_witness :
    ((BatchStockLoader.loadAllStocks goodOracle 0 3 5
      ["AAA", "BBB"]).1.map Stock.ticker) = ["AAA", "BBB"] :=
  ((C5_amended_batch_loader_completeness goodOracle 0 3 10 5 ["AAA", "BBB"]
    (goodOracle_exact 0) (by decide) (by decide) (by decide)
    (by decide)).1).1

theorem jsRound_percentage_le (l t : ℕ) (hl : l ≤ t) :
    jsRound ((l : ℚ) / (t : ℚ) * 100) ≤ 100 := by
  rcases Nat.eq_zero_or_pos t with rfl | ht
  · have hl0 : l = 0 := Nat.le_zero.mp hl
    subst hl0
    have hz : ((0 : ℕ) : ℚ) / ((0 : ℕ) : ℚ) * 100 = 0 := by norm_num
    rw [jsRound, hz]
    have hfl : ⌊(0 : ℚ) + 1 / 2⌋ = 0 := by
      apply Int.floor_eq_iff.mpr
      constructor <;> norm_num
    rw [hfl]
    norm_num
  · have htq : (0 : ℚ) < (t : ℚ) := by exact_mod_cast ht
    have h1 : ((l : ℚ) / (t : ℚ)) ≤ 1 := by
      rw [div_le_one htq]
      exact_mod_cast hl
    have h2 : ((l : ℚ) / (t : ℚ) * 100) ≤ 100 := by nlinarith
    have h3 : ((l : ℚ) / (t : ℚ) * 100 + 1 / 2) < 101 := by linarith
    have h4 : jsRound ((l : ℚ) / (t : ℚ) * 100) < 101 := by
      rw [jsRound]
      exact Int.floor_lt.mpr (by exact_mod_cast h3)
    omega

/-- Ten symbols and nine pre-cached records: a 90 percent cache. -/
def tenSymbols : List String :=
  ["S1", "S2", "S3", "S4", "S5", "S6", "S7", "S8", "S9", "S10"]

def nineSymbols : List String :=
  ["S1", "S2", "S3", "S4", "S5", "S6", "S7", "S8", "S9"]

def nineStocks : List Stock := nineSymbols.map mkStock

/-- **C6 counterexample.**  The claim says every progress report computes
its percentage as `round(loadedCount / totalRequested * 100)`.  The SP500
loader's cache short-circuit emits a report whose `percentage` is
hard-coded to 100 while its own `loaded` and `total` fields say 9 of 10 —
whose rounded percentage is 90, not 100. -/
theorem C6_counterexample_hardcoded_hundred :
    (spProgressReports ((SP500Loader.loadAllStocks goodOracle 0 3 tenSymbols
        nineStocks nineSymbols).2)
      = [{ loaded := 9, total := 10, currentSymbol := "Cached",
           percentage := 100, isFromCache := true }])
      ∧ jsRound ((9 : ℚ) / (10 : ℚ) * 100) = 90
      ∧ ¬ ((100 : ℤ) = jsRound ((9 : ℚ) / (10 : ℚ) * 100)) := by
  have h90 : jsRound ((9 : ℚ) / (10 : ℚ) * 100) = 90 := by
    rw [jsRound]
    apply Int.floor_eq_iff.mpr
    constructor <;> norm_num
  refine ⟨by decide, h90, ?_⟩
  rw [h90]
  decide

theorem spProgressReports_map_progress (reports : List LoadingProgress)
    (stocks : List Stock) :
    spProgressReports (reports.map SPEvent.progress
      ++ [SPEvent.complete stocks]) = reports := by
  induction reports with
  | nil => rfl
  | cons r rest ih =>
    simp only [List.map_cons, List.cons_append, spProgressReports,
      List.filterMap_cons] at ih ⊢
    rw [ih]

/-- **C6 (amended).**  Progress reports emitted by the SP500 batch loop do
satisfy the claimed formula: each carries the universe size as `total` and
`percentage = round(loaded / total * 100)`, where `loaded` is the length of
the accumulated array (no explicit deduplication; under an exact source
and a duplicate-free cache drawn from a duplicate-free universe it equals
the number of distinct loaded symbols).  Every report of a run — batch
loop or cache short-circuit — keeps `loaded` at most `total` and
`percentage` at most 100; only the short-circuit report hard-codes 100
instead of the rounded ratio. -/
theorem C6_amended_percentage_bounds
    (oracle : List String → ℕ → List FetchResult) (now mr : ℕ)
    (univSymbols : List String) (loaded0 : List Stock)
    (h : ExactSource oracle now) (hmr : 0 < mr)
    (hund : univSymbols.Nodup) (hns : ("" : String) ∉ univSymbols)
    (hlnd : (loaded0.map Stock.ticker).Nodup)
    (hlsub : ∀ x ∈ loaded0.map Stock.ticker, x ∈ univSymbols) :
    (∀ (batches : List (List String)) (acc : List Stock),
      ∀ p ∈ (SP500Loader.loadStocksInBatches oracle now mr
          univSymbols.length batches acc).2,
        p.total = univSymbols.length
          ∧ p.percentage =
              jsRound ((p.loaded : ℚ) / (univSymbols.length : ℚ) * 100))
    ∧ (∀ p ∈ spProgressReports ((SP500Loader.loadAllStocks oracle now mr
          univSymbols loaded0 (loaded0.map Stock.ticker)).2),
        p.loaded ≤ univSymbols.length ∧ p.percentage ≤ 100) := by
  have hle0 : loaded0.length ≤ univSymbols.length := by
    have e1 : (loaded0.map Stock.ticker).length = loaded0.length :=
      List.length_map _ _
    have := (List.subperm_of_subset hlnd hlsub).length_le
    omega
  constructor
  · intro batches acc p hp
    exact SP500Loader.loadStocksInBatches_percentage oracle now mr
      univSymbols.length batches acc p hp
  · intro p hp
    unfold SP500Loader.loadAllStocks at hp
    split at hp
    · simp [spProgressReports] at hp
    · split at hp
      · simp only [spProgressReports, List.filterMap_cons,
          List.filterMap_nil] at hp
        simp only [List.mem_cons, List.not_mem_nil, or_false] at hp
        subst hp
        exact ⟨hle0, by norm_num⟩
      · dsimp only at hp
        split at hp
        · simp [spProgressReports] at hp
        · rw [spProgressReports_map_progress] at hp
          have hbs5 : (0 : ℕ) < 5 := by norm_num
          have hrsub : (univSymbols.filter fun s =>
              !((loaded0.map Stock.ticker).contains s)) ⊆ univSymbols := by
            intro x hx
            exact (List.mem_filter.mp hx).1
          have hbatches : ∀ b ∈ createBatches
              (univSymbols.filter fun s =>
                !((loaded0.map Stock.ticker).contains s)) 5,
              b ≠ [] ∧ ("" : String) ∉ b := by
            intro b hb
            refine ⟨(createBatches_mem _ 5 hbs5 b hb).1, ?_⟩
            intro hcon
            exact hns (hrsub (createBatches_mem_subset _ 5 hbs5 b hb hcon))
          have hflat : (createBatches (univSymbols.filter fun s =>
              !((loaded0.map Stock.ticker).contains s)) 5).flatten
              = univSymbols.filter fun s =>
                  !((loaded0.map Stock.ticker).contains s) :=
            createBatches_flatten _ 5 hbs5
          have hnd2 : (loaded0.map Stock.ticker ++
              (createBatches (univSymbols.filter fun s =>
                !((loaded0.map Stock.ticker).contains s)) 5).flatten).Nodup := by
            rw [hflat]
            refine List.Nodup.append hlnd (hund.filter _) ?_
            intro a ha hb2
            simp [List.mem_filter] at hb2
            obtain ⟨s, hs, rfl⟩ := List.mem_map.mp ha
            exact hb2.2 s hs rfl
          have hsub2 : ∀ x ∈ loaded0.map Stock.ticker ++
              (createBatches (univSymbols.filter fun s =>
                !((loaded0.map Stock.ticker).contains s)) 5).flatten,
              x ∈ univSymbols := by
            intro x hx
            rw [hflat] at hx
            rcases List.mem_append.mp hx with hx | hx
            · exact hlsub x hx
            · exact hrsub hx
          have hle := SP500Loader.loadStocksInBatches_loaded_le oracle now
            mr univSymbols h hmr
            (createBatches (univSymbols.filter fun s =>
              !((loaded0.map Stock.ticker).contains s)) 5) loaded0
            hbatches hnd2 hsub2 p hp
          have hform := SP500Loader.loadStocksInBatches_percentage oracle
            now mr univSymbols.length
            (createBatches (univSymbols.filter fun s =>
              !((loaded0.map Stock.ticker).contains s)) 5) loaded0 p hp
          refine ⟨hle, ?_⟩
          rw [hform.2]
          exact jsRound_percentage_le p.loaded univSymbols.length hle

/-- The report emitted by the 90-percent cache short-circuit for a
ten-symbol universe with nine cached records. -/
def cachedNineOfTenReport : LoadingProgress :=
  { loaded := 9, total := 10, currentSymbol := "Cached",
    percentage := 100, isFromCache := true }

/-- **C6 witness.** -/
theorem C6_amended_percentage_bounds_witness :
    cachedNineOfTenReport.loaded ≤ tenSymbols.length
      ∧ cachedNineOfTenReport.percentage ≤ 100 :=
  (C6_amended_percentage_bounds goodOracle 0 3 tenSymbols nineStocks
    (goodOracle_exact 0) (by decide) (by decide) (by decide) (by decide)
    (by decide)).2 cachedNineOfTenReport (by decide)

/-- **C7 counterexample.**  The claim covers every loader variant, but the
smart loader's Progress Store reader never inspects the snapshot
timestamp: a snapshot of any age — here timestamp 0, arbitrarily far in
the past — is restored in full rather than treated as absent. -/
theorem C7_counterexample_smartLoader_ignores_age :
    SmartLoader.loadFromCache (some
        { stocks := [mkStock "AAA"], processedSymbols := ["AAA"],
          timestamp := 0 })
      = ([mkStock "AAA"], ["AAA"])
      ∧ ¬ (SmartLoader.loadFromCache (some
        { stocks := [mkStock "AAA"], processedSymbols := ["AAA"],
          timestamp := 0 })
        = ([], [])) := by
  decide

/-- **C7 (amended).**  The persistent loader does satisfy the claim: a
snapshot older than `maxCacheAge` is removed and read as empty, and the
subsequent load then partitions exactly the full requested symbol list
into its fetch batches (every symbol is refetched).  The smart loader has
no max-age check at all: its reader restores any stored snapshot
unconditionally, regardless of age. -/
theorem C7_amended_stale_cache_refetch
    (stored : PersistentStockLoader.CacheSnapshot)
    (now maxCacheAge : ℕ) (hstale : maxCacheAge < now - stored.timestamp)
    (bs : ℕ) (hbs : 0 < bs) (allSymbols : List String) :
    PersistentStockLoader.loadFromCache (some stored) now maxCacheAge
        = ([], none)
      ∧ (createBatches (getRemainingSymbols allSymbols
          (PersistentStockLoader.loadFromCache (some stored) now
            maxCacheAge).1) bs).flatten = allSymbols
      ∧ (∀ snap : SmartCacheSnapshot, SmartLoader.loadFromCache (some snap)
          = (snap.stocks, snap.processedSymbols)) := by
  have hread : PersistentStockLoader.loadFromCache (some stored) now
      maxCacheAge = ([], none) := by
    simp [PersistentStockLoader.loadFromCache, hstale]
  refine ⟨hread, ?_, fun snap => rfl⟩
  rw [hread]
  simp only [getRemainingSymbols_nil]
  exact createBatches_flatten allSymbols bs hbs

/-- **C7 witness.** -/
theorem C7_amended_stale_cache_refetch_witness :
    PersistentStockLoader.loadFromCache
        (some { stocks := [mkStock "AAA"], timestamp := 0 })
        100000000 86400000
      = ([], none) :=
  (C7_amended_stale_cache_refetch
    { stocks := [mkStock "AAA"], timestamp := 0 } 100000000 86400000
    (by norm_num) 5 (by norm_num) ["AAA", "BBB"]).1
